import Mathlib

/-!
Verification development for the `twin` session orchestrator and tool
dispatch engine (`twin/lib/session.py`, `twin/lib/tools.py`).

All program text is modelled as `List Char`.  Python's Unicode character
classes (`\w`, `\s`, `str.strip`, …) are modelled by their ASCII portion,
which is the only portion exercised by the program's own wire formats.
Machine integers are modelled as `Int`/`Nat`; the only floating-point
arithmetic in the modelled code paths (the 0.7 compaction high-water
multiplier and `_format_size`) is modelled by exact rational arithmetic,
with a comment at each site.
-/

namespace Twin

/-- ASCII whitespace, the portion of Python's `\s` / `str.split` whitespace
class that the modelled wire formats use. -/
def isWs (c : Char) : Bool :=
  c = ' ' || c = '\t' || c = '\n' || c = '\r' || c = '\x0b' || c = '\x0c'

/-- ASCII portion of Python's regex `\w` class. -/
def isWordChar (c : Char) : Bool :=
  ('a' ≤ c && c ≤ 'z') || ('A' ≤ c && c ≤ 'Z') || ('0' ≤ c && c ≤ '9') || c = '_'

/-- ASCII decimal digit. -/
def isDigit (c : Char) : Bool := '0' ≤ c && c ≤ '9'

/-- Whitespace accepted between JSON tokens by Python's `json` module
(space, tab, newline, carriage return). -/
def isJsonWs (c : Char) : Bool := c = ' ' || c = '\t' || c = '\n' || c = '\r'

/-- Drop the JSON inter-token whitespace prefix (Python `json.decoder.WHITESPACE`). -/
def skipWs (s : List Char) : List Char := s.dropWhile isJsonWs

/-- A decoded JSON value as produced by `json.loads`.  Numbers keep their
source text (their numeric value is irrelevant to every claim), and objects
keep their members in source order, duplicates included. -/
inductive J where
  | null : J
  | bool : Bool → J
  | num : List Char → J
  | str : List Char → J
  | arr : List J → J
  | obj : List (List Char × J) → J
deriving Repr

/-- Value of a hexadecimal digit, if any. -/
def hexDigit (c : Char) : Option Nat :=
  if '0' ≤ c ∧ c ≤ '9' then some (c.toNat - '0'.toNat)
  else if 'a' ≤ c ∧ c ≤ 'f' then some (c.toNat - 'a'.toNat + 10)
  else if 'A' ≤ c ∧ c ≤ 'F' then some (c.toNat - 'A'.toNat + 10)
  else none

/-- Decoding of a two-character JSON backslash escape (Python `BACKSLASH` table). -/
def jsonEscape (c : Char) : Option Char :=
  if c = '"' then some '"'
  else if c = '\\' then some '\\'
  else if c = '/' then some '/'
  else if c = 'b' then some '\x08'
  else if c = 'f' then some '\x0c'
  else if c = 'n' then some '\n'
  else if c = 'r' then some '\r'
  else if c = 't' then some '\t'
  else none

/-- Body of a JSON string after the opening quote, per Python's strict
`py_scanstring`: ends at the closing quote, two-character escapes and
`\uXXXX` escapes are decoded, unescaped control characters are rejected.
(Surrogate-pair recombination is not modelled; it affects only the decoded
character, never parse success.) -/
def parseStringBody : List Char → Option (List Char × List Char)
  | [] => none
  | c :: rest =>
    if c = '"' then some ([], rest)
    else if c = '\\' then
      match rest with
      | [] => none
      | e :: rest2 =>
        if e = 'u' then
          match rest2 with
          | a :: b :: c2 :: d :: rest3 =>
            match hexDigit a, hexDigit b, hexDigit c2, hexDigit d with
            | some va, some vb, some vc, some vd =>
              (match parseStringBody rest3 with
               | some (cs, r) =>
                 some (Char.ofNat (((va * 16 + vb) * 16 + vc) * 16 + vd) :: cs, r)
               | none => none)
            | _, _, _, _ => none
          | _ => none
        else
          match jsonEscape e with
          | some ch =>
            (match parseStringBody rest2 with
             | some (cs, r) => some (ch :: cs, r)
             | none => none)
          | none => none
    else if c.toNat < 32 then none
    else
      match parseStringBody rest with
      | some (cs, r) => some (c :: cs, r)
      | none => none

/-- The integer part of Python's `NUMBER_RE`: `0` or a nonzero digit followed
by any digits.  Returns the matched text and the remainder. -/
def parseIntPart : List Char → Option (List Char × List Char)
  | [] => none
  | c :: rest =>
    if c = '0' then some (['0'], rest)
    else if '1' ≤ c ∧ c ≤ '9' then some (c :: rest.takeWhile isDigit, rest.dropWhile isDigit)
    else none

/-- The optional fraction part `(\.\d+)?` of Python's `NUMBER_RE`: consumed
only when the dot is directly followed by at least one digit. -/
def parseFracPart : List Char → List Char × List Char
  | [] => ([], [])
  | c :: rest =>
    if c = '.' then
      if rest.takeWhile isDigit = [] then ([], c :: rest)
      else ('.' :: rest.takeWhile isDigit, rest.dropWhile isDigit)
    else ([], c :: rest)

/-- The optional exponent part `([eE][-+]?\d+)?` of Python's `NUMBER_RE`. -/
def parseExpPart : List Char → List Char × List Char
  | [] => ([], [])
  | e :: rest =>
    if e = 'e' ∨ e = 'E' then
      match rest with
      | [] => ([], e :: rest)
      | sgn :: rest2 =>
        if sgn = '+' ∨ sgn = '-' then
          if rest2.takeWhile isDigit = [] then ([], e :: rest)
          else (e :: sgn :: rest2.takeWhile isDigit, rest2.dropWhile isDigit)
        else
          if rest.takeWhile isDigit = [] then ([], e :: rest)
          else (e :: rest.takeWhile isDigit, rest.dropWhile isDigit)
    else ([], e :: rest)

/-- A whole numeral per Python's `NUMBER_RE`
`(-?(?:0|[1-9]\d*))(\.\d+)?([eE][-+]?\d+)?`: matched text plus remainder. -/
def parseNumber (s : List Char) : Option (List Char × List Char) :=
  match s with
  | [] => none
  | c :: rest =>
    if c = '-' then
      match parseIntPart rest with
      | some (ip, r1) =>
        let fr := parseFracPart r1
        let er := parseExpPart fr.2
        some ('-' :: (ip ++ fr.1 ++ er.1), er.2)
      | none => none
    else
      match parseIntPart (c :: rest) with
      | some (ip, r1) =>
        let fr := parseFracPart r1
        let er := parseExpPart fr.2
        some (ip ++ fr.1 ++ er.1, er.2)
      | none => none

/-- Selector for the three mutually recursive productions of Python's
`json.scanner.py_make_scanner` scanner: a value, the members of an object
after its first key's opening quote position, and the elements of an array. -/
inductive PMode where
  | value : PMode
  | members : PMode
  | elems : PMode
deriving DecidableEq, Repr

/-- The recursive core of Python's pure-Python JSON scanner (`_scan_once`,
`JSONObject`, `JSONArray`), structural on a fuel counter so that it is
total and kernel-reducible.  `members` is entered at the first key's quote
(the empty-object case is handled by `value`); it consumes up to and
including the closing brace.  `elems` likewise consumes up to and including
the closing bracket. -/
def parseJ : Nat → PMode → List Char → Option (J × List Char)
  | 0, _, _ => none
  | Nat.succ f, PMode.value, s =>
    match s with
    | [] => none
    | a :: r =>
      if a = '{' then
        match skipWs r with
        | [] => none
        | d :: r2 =>
          if d = '}' then some (J.obj [], r2) else parseJ f PMode.members (d :: r2)
      else if a = '[' then
        match skipWs r with
        | [] => none
        | d :: r2 =>
          if d = ']' then some (J.arr [], r2) else parseJ f PMode.elems (d :: r2)
      else if a = '"' then
        match parseStringBody r with
        | some (cs, rest) => some (J.str cs, rest)
        | none => none
      else if a = 't' then
        if ("true".toList).isPrefixOf s then some (J.bool true, s.drop 4) else none
      else if a = 'f' then
        if ("false".toList).isPrefixOf s then some (J.bool false, s.drop 5) else none
      else if a = 'n' then
        if ("null".toList).isPrefixOf s then some (J.null, s.drop 4) else none
      else if a = 'N' then
        if ("NaN".toList).isPrefixOf s then some (J.num ("NaN".toList), s.drop 3) else none
      else if a = 'I' then
        if ("Infinity".toList).isPrefixOf s then
          some (J.num ("Infinity".toList), s.drop 8)
        else none
      else
        match parseNumber s with
        | some (tok, rest) => some (J.num tok, rest)
        | none =>
          if ("-Infinity".toList).isPrefixOf s then
            some (J.num ("-Infinity".toList), s.drop 9)
          else none
  | Nat.succ f, PMode.members, s =>
    match s with
    | [] => none
    | a :: r =>
      if a = '"' then
        match parseStringBody r with
        | none => none
        | some (key, r1) =>
          match skipWs r1 with
          | [] => none
          | b :: r2 =>
            if b = ':' then
              match parseJ f PMode.value (skipWs r2) with
              | none => none
              | some (v, r3) =>
                match skipWs r3 with
                | [] => none
                | e :: r4 =>
                  if e = ',' then
                    match parseJ f PMode.members (skipWs r4) with
                    | some (J.obj kvs, r5) => some (J.obj ((key, v) :: kvs), r5)
                    | _ => none
                  else if e = '}' then some (J.obj [(key, v)], r4)
                  else none
            else none
      else none
  | Nat.succ f, PMode.elems, s =>
    match parseJ f PMode.value s with
    | none => none
    | some (v, r) =>
      match skipWs r with
      | [] => none
      | e :: r2 =>
        if e = ',' then
          match parseJ f PMode.elems (skipWs r2) with
          | some (J.arr vs, r3) => some (J.arr (v :: vs), r3)
          | _ => none
        else if e = ']' then some (J.arr [v], r2)
        else none

/-- `json.loads`: skip leading whitespace, scan one value, require only
whitespace after it.  A fuel of one more than the input length is always
sufficient because every recursive scanner call first consumes at least one
character. -/
def jsonLoads (s : List Char) : Option J :=
  let s1 := skipWs s
  match parseJ (s1.length + 1) PMode.value s1 with
  | some (v, rest) => if skipWs rest = [] then some v else none
  | none => none

/-! ### The tool-call parser (`SessionOrchestrator._parse_tool_calls`)

The source scans the model reply with
`re.finditer(r'TOOL_CALL:\s*(\w+)\s*\nARGS:\s*(\{[^}]+\})', response,
re.MULTILINE | re.DOTALL)`.  Neither flag is observable: the pattern
contains no `^`, `$` or `.`.  Because `\s` and `\w` are disjoint and every
literal that follows a starred class starts with a non-member of that
class, the regex is deterministic, and one position either fails or yields
exactly one match: after the literal `TOOL_CALL:` comes the maximal
whitespace run, then the maximal nonempty word run (group 1), then a
nonempty whitespace run whose last character is the `\n` literal, then
`ARGS:`, a maximal whitespace run, `{`, a maximal nonempty run of
non-`}` characters, and `}` (group 2 spans from `{` to that first `}`).
`finditer` tries successive start positions and resumes after each match's
end, which `findMatchesAux` reproduces with a skip counter so that the
recursion stays structural. -/

/-- One regex match: group 1 (the tool name) and group 2 (the args text).
Python applies `.strip()` to both, which is the identity here: group 1 is
word characters only and group 2 starts with a brace and ends with one. -/
structure RawMatch where
  name : List Char
  capture : List Char
deriving DecidableEq, Repr

/-- Strip the literal prefix `p`, or fail. -/
def stripPfx (p s : List Char) : Option (List Char) :=
  if p.isPrefixOf s then some (s.drop p.length) else none

/-- Attempt the tool-call pattern anchored at the head of `s`; on success,
return the match and the remainder of `s` after the match. -/
def tryMatchAt (s : List Char) : Option (RawMatch × List Char) :=
  match stripPfx ("TOOL_CALL:".toList) s with
  | none => none
  | some s0 =>
    let s1 := s0.dropWhile isWs
    let name := s1.takeWhile isWordChar
    if name = [] then none
    else
      let s2 := s1.dropWhile isWordChar
      let wsrun := s2.takeWhile isWs
      let s3 := s2.dropWhile isWs
      if wsrun.getLast? = some '\n' then
        match stripPfx ("ARGS:".toList) s3 with
        | none => none
        | some s4 =>
          match s4.dropWhile isWs with
          | [] => none
          | c :: s6 =>
            if c = '{' then
              let body := s6.takeWhile (fun x => x ≠ '}')
              if body = [] then none
              else
                match s6.dropWhile (fun x => x ≠ '}') with
                | [] => none
                | e :: rem =>
                  if e = '}' then some (⟨name, '{' :: (body ++ ['}'])⟩, rem) else none
            else none
      else none

/-- Left-to-right non-overlapping scan, as `re.finditer` performs it.  The
second argument counts characters still to skip because they lie inside the
match just emitted. -/
def findMatchesAux : List Char → Nat → List RawMatch
  | [], _ => []
  | _ :: rest, Nat.succ k => findMatchesAux rest k
  | c :: rest, 0 =>
    match tryMatchAt (c :: rest) with
    | some (m, rem) => m :: findMatchesAux rest (rest.length - rem.length)
    | none => findMatchesAux rest 0

/-- All matches of the legacy tool-call pattern in a reply, in order. -/
def findMatches (s : List Char) : List RawMatch := findMatchesAux s 0

/-- A parsed tool invocation, the element type of `_parse_tool_calls`'s
result list (the source's per-call dict with keys `tool` and `args`). -/
structure ToolCall where
  tool : List Char
  args : J
deriving Repr

/-- The loop body of `_parse_tool_calls` for one match: `json.loads` the
captured args; on `JSONDecodeError` the match is skipped with a console
warning (warnings are not modelled). -/
def decodeMatch (m : RawMatch) : Option ToolCall :=
  match jsonLoads m.capture with
  | some args => some ⟨m.name, args⟩
  | none => none

/-- `SessionOrchestrator._parse_tool_calls`: every regex match is decoded
independently of its siblings, in match order. -/
def parseToolCalls (response : List Char) : List ToolCall :=
  (findMatches response).filterMap decodeMatch

/-! ### `tools.py`: the uniform result type and the `edit` tool -/

/-- A metadata value.  The source stores heterogeneous Python values in the
`metadata` dict; the one float (`matches_per_file_avg` in `grep`) is kept as
the exact pair numerator/denominator. -/
inductive MetaVal where
  | null : MetaVal
  | b : Bool → MetaVal
  | i : Int → MetaVal
  | s : List Char → MetaVal
  | d : List (List Char × MetaVal) → MetaVal
  | frac : Nat → Nat → MetaVal
deriving Repr

/-- `tools.ToolResult`: `metadata=None` defaults to the empty dict. -/
structure ToolResult where
  success : Bool
  output : Option (List Char)
  error : Option (List Char)
  metadata : List (List Char × MetaVal) := []
deriving Repr

/-- The keys of a metadata dict. -/
def metaKeys (md : List (List Char × MetaVal)) : List (List Char) := md.map Prod.fst

/-- `dict.get(key, None)` on a metadata dict. -/
def metaLookup (key : List Char) : List (List Char × MetaVal) → Option MetaVal
  | [] => none
  | (k, v) :: rest => if k = key then some v else metaLookup key rest

/-- Decimal rendering of a `Nat`, as Python's `str`. -/
def natStr (n : Nat) : List Char := (toString n).toList

/-- Decimal rendering of an `Int`, as Python's `str`. -/
def intStr (n : Int) : List Char := (toString n).toList

/-- Python `str.count`: non-overlapping occurrences, scanned left to right.
The skip counter keeps the recursion structural: after a hit at the head,
the remaining `old.length - 1` characters of the occurrence are passed
over. -/
def pyCountAux (old : List Char) : List Char → Nat → Nat
  | [], _ => 0
  | _ :: rest, Nat.succ k => pyCountAux old rest k
  | c :: rest, 0 =>
    if old.isPrefixOf (c :: rest) then pyCountAux old rest (old.length - 1) + 1
    else pyCountAux old rest 0

/-- Python `content.count(old)`; for the empty needle Python returns
`len(content) + 1`. -/
def pyCount (old s : List Char) : Nat :=
  if old = [] then s.length + 1 else pyCountAux old s 0

/-- Python `str.replace` on every (non-overlapping, leftmost) occurrence. -/
def pyReplaceAux (old new : List Char) : List Char → Nat → List Char
  | [], _ => []
  | _ :: rest, Nat.succ k => pyReplaceAux old new rest k
  | c :: rest, 0 =>
    if old.isPrefixOf (c :: rest) then new ++ pyReplaceAux old new rest (old.length - 1)
    else c :: pyReplaceAux old new rest 0

/-- Python `content.replace(old, new)`; the empty needle interleaves `new`
around every character. -/
def pyReplace (old new s : List Char) : List Char :=
  if old = [] then new ++ s.foldr (fun c acc => c :: (new ++ acc)) []
  else pyReplaceAux old new s 0

/-- `ToolRegistry._edit_file`, as a state-passing function over the target
file's content (`none` models a missing file; `Path.expanduser` and
read/write I/O errors are outside the pure model).  Python's membership
test `old_string in content` holds exactly when `content.count(old_string)`
is nonzero.  Returns the `ToolResult` together with the resulting file
content; no failure path writes. -/
def editFile (filePath old new : List Char) (file : Option (List Char)) :
    ToolResult × Option (List Char) :=
  match file with
  | none =>
    (⟨false, none, some ("File not found: ".toList ++ filePath), []⟩, none)
  | some content =>
    if pyCount old content = 0 then
      (⟨false, none,
        some ("String not found in file: \x27".toList ++ old.take 50 ++ "...\x27".toList), []⟩,
       some content)
    else if 1 < pyCount old content then
      (⟨false, none,
        some ("String appears ".toList ++ natStr (pyCount old content) ++
          " times. Be more specific or use replace_all.".toList), []⟩,
       some content)
    else
      (⟨true, some ("Edited ".toList ++ filePath), none,
        [("file_path".toList, MetaVal.s filePath),
         ("replacements".toList, MetaVal.i 1),
         ("old_length".toList, MetaVal.i old.length),
         ("new_length".toList, MetaVal.i new.length)]⟩,
       some (pyReplace old new content))

/-! ### `bash` tool and the orchestrator's tool-execution loop -/

/-- Outcome of
`subprocess.run(command, shell=True, capture_output=True, text=True, timeout=timeout)`:
a completed process with captured streams and exit status, expiry of the
wall-clock timeout (`subprocess.TimeoutExpired`), or any other exception
rendered as its message. -/
inductive BashOutcome where
  | completed : List Char → List Char → Int → BashOutcome
  | timedOut : BashOutcome
  | raised : List Char → BashOutcome

/-- `ToolRegistry._bash`: merges stdout with labelled stderr, reports the
exit code in metadata, and keeps the timeout a distinct failure without
metadata.  The source's default timeout is 120 seconds. -/
def bashTool (command : List Char) (timeout : Nat) (outcome : BashOutcome) : ToolResult :=
  match outcome with
  | BashOutcome.completed out err rc =>
    let output := out ++ (if err ≠ [] then "\n[stderr]\n".toList ++ err else [])
    let md := [("returncode".toList, MetaVal.i rc),
               ("command".toList, MetaVal.s command),
               ("timeout".toList, MetaVal.i timeout)]
    if rc = 0 then ⟨true, some output, none, md⟩
    else ⟨false, some output, some ("Command failed with code ".toList ++ intStr rc), md⟩
  | BashOutcome.timedOut =>
    ⟨false, none, some ("Command timed out after ".toList ++ natStr timeout ++ "s".toList), []⟩
  | BashOutcome.raised e =>
    ⟨false, none, some ("Error executing command: ".toList ++ e), []⟩

/-- The behaviour of one registered tool's `execute` callable on given
args: a returned `ToolResult`, or a raised exception rendered as its
message (Python `str(e)`); keyword-unpacking errors raise and land in the
same case. -/
def ToolFn : Type := J → Except (List Char) ToolResult

/-- One iteration of `SessionOrchestrator._execute_tools`: `registry.get`
misses produce the "Unknown tool" failure, exceptions from the tool body
are caught and converted, and a returned result is passed through. -/
def executeToolCall (registry : List Char → Option ToolFn) (call : ToolCall) : ToolResult :=
  match registry call.tool with
  | none => ⟨false, none, some ("Unknown tool: ".toList ++ call.tool), []⟩
  | some f =>
    match f call.args with
    | Except.ok r => r
    | Except.error e => ⟨false, none, some e, []⟩

/-- `SessionOrchestrator._execute_tools`: sequential execution in call
order, one result appended per call. -/
def executeTools (registry : List Char → Option ToolFn) : List ToolCall → List ToolResult
  | [] => []
  | call :: rest => executeToolCall registry call :: executeTools registry rest

/-! ### `session.py`: message buffer, compactor and backend calls -/

/-- Message role. -/
inductive Role where
  | system : Role
  | user : Role
  | assistant : Role
deriving DecidableEq, Repr

/-- A conversation message: the source's per-message dict with keys
`role`, `content` and (on user messages with attachments) `images`. -/
structure Msg where
  role : Role
  content : List Char
  images : Option (List (List Char)) := none
deriving DecidableEq, Repr

/-- The `generation_params` table of `twin_config`, restricted to the keys
the compactor and backend-call path read. -/
structure GenerationParams where
  num_ctx : Option Nat := none
deriving DecidableEq, Repr

/-- The `ollama` table of `twin_config`, restricted likewise. -/
structure OllamaCfg where
  context_window : Option Nat := none
deriving DecidableEq, Repr

/-- The configuration slice consulted by `_maybe_compact_messages`. -/
structure TwinConfig where
  generation_params : GenerationParams := {}
  ollama : OllamaCfg := {}
deriving DecidableEq, Repr

/-- Python `a or b` on an optional integer: `None` and `0` both fall
through to `b`. -/
def pyOrNat (a : Option Nat) (b : Nat) : Nat :=
  match a with
  | some n => if n = 0 then b else n
  | none => b

/-- `generation_params.get('num_ctx') or ollama_cfg.get('context_window', 32768)`. -/
def numCtxOf (cfg : TwinConfig) : Nat :=
  pyOrNat cfg.generation_params.num_ctx (cfg.ollama.context_window.getD 32768)

/-- `int(num_ctx * 4)`, the rough character budget. -/
def maxCharsOf (cfg : TwinConfig) : Nat := numCtxOf cfg * 4

/-- `int(max_chars * 0.7)`.  Python evaluates this in IEEE-754 doubles,
which for some budgets (first at 90) is one below the exact floor `7n/10`
used here; every compaction theorem below is stated away from that
boundary. -/
def compactThreshold (cfg : TwinConfig) : Nat := maxCharsOf cfg * 7 / 10

/-- `SessionOrchestrator._estimate_char_count`: the sum of content lengths. -/
def estimateCharCount (msgs : List Msg) : Nat :=
  (msgs.map fun m => m.content.length).sum

/-- Sentence-final punctuation of the summarizer's splitting regex. -/
def isSentEnd (c : Char) : Bool := c = '.' || c = '!' || c = '?'

/-- `re.split(r'(?<=[.!?])\s+', text)`: the text is cut at every maximal
whitespace run that directly follows sentence-final punctuation; a
separator at the end of the text leaves a final empty piece, exactly as
`re.split` does.  The Boolean is true while inside a separator run, `acc`
holds the current piece reversed. -/
def splitSentencesAux : List Char → Bool → List Char → List (List Char)
  | [], true, _ => [[]]
  | [], false, acc => [acc.reverse]
  | c :: rest, true, acc =>
    if isWs c then splitSentencesAux rest true acc
    else splitSentencesAux rest false [c]
  | c :: rest, false, acc =>
    if isWs c && (match acc.head? with | some p => isSentEnd p | none => false) then
      acc.reverse :: splitSentencesAux rest true []
    else splitSentencesAux rest false (c :: acc)

/-- Sentence splitting of `_summarize_text`. -/
def splitSentences (text : List Char) : List (List Char) :=
  splitSentencesAux text false []

/-- Python `str.strip()` (ASCII whitespace portion). -/
def pyStrip (s : List Char) : List Char :=
  ((s.dropWhile isWs).reverse.dropWhile isWs).reverse

/-- Python `str.splitlines()` restricted to the ASCII terminators
`\n`, `\r`, `\r\n`, `\x0b`, `\x0c` (the Unicode ones are unused here):
no trailing empty line for a trailing terminator. -/
def pySplitlinesAux : List Char → List Char → List (List Char)
  | [], [] => []
  | [], acc => [acc.reverse]
  | '\r' :: '\n' :: rest, acc => acc.reverse :: pySplitlinesAux rest []
  | c :: rest, acc =>
    if c = '\n' ∨ c = '\r' ∨ c = '\x0b' ∨ c = '\x0c' then
      acc.reverse :: pySplitlinesAux rest []
    else pySplitlinesAux rest (c :: acc)

/-- Python `text.splitlines()`. -/
def pySplitlines (s : List Char) : List (List Char) := pySplitlinesAux s []

/-- The bullet-collecting loop of `_summarize_text`: empty sentences are
skipped, long sentences are truncated to 200 characters plus an ellipsis,
and the loop breaks when the running total (3 extra characters per bullet)
would pass `max_chars` or `max_items` bullets exist. -/
def summarizeLoop (maxChars maxItems : Nat) :
    List (List Char) → List (List Char) → Nat → List (List Char)
  | [], bullets, _ => bullets.reverse
  | sent :: rest, bullets, total =>
    let s := pyStrip sent
    if s = [] then summarizeLoop maxChars maxItems rest bullets total
    else
      let s2 := if 200 < s.length then s.take 200 ++ "...".toList else s
      let candidate := total + s2.length + 3
      if maxChars < candidate ∨ maxItems ≤ bullets.length then bullets.reverse
      else summarizeLoop maxChars maxItems rest (("- ".toList ++ s2) :: bullets) candidate

/-- `SessionOrchestrator._summarize_text`: deterministic bulletized
summarization; falls back to the first stripped nonempty lines when no
bullet was produced. -/
def summarizeText (text : List Char) (maxChars maxItems : Nat) : List Char :=
  let bullets := summarizeLoop maxChars maxItems (splitSentences text) [] 0
  if bullets ≠ [] then
    (List.intercalate ("\n".toList) bullets).take maxChars
  else
    let lines := ((pySplitlines text).map pyStrip).filter fun l => l ≠ []
    if lines = [] then []
    else
      let summary := List.intercalate ("\n".toList) (lines.take maxItems)
      summary.take maxChars ++ (if maxChars < summary.length then "...".toList else [])

/-- The mutable orchestrator state touched by the compactor and the
backend-call path. -/
structure SessionState where
  messages : List Msg
  static_system_messages : List Msg
  running_summary : List Char
  config : TwinConfig
deriving DecidableEq, Repr

/-- Content of the synthetic summary message. -/
def summaryMsgContent (summary : List Char) : List Char :=
  "Conversation so far (summarized):\n".toList ++ summary

/-- The compactor's `dynamic_messages` local: everything past the static
system messages. -/
def dynamicTail (st : SessionState) : List Msg :=
  st.messages.drop st.static_system_messages.length

/-- The compactor's `old_messages` local: the dynamic tail before the
protected window of 6 (`dynamic_messages[:-6]`). -/
def compactOldMessages (st : SessionState) : List Msg :=
  (dynamicTail st).take ((dynamicTail st).length - 6)

/-- The compactor's `recent_messages` local (`dynamic_messages[-6:]`). -/
def compactRecent (st : SessionState) : List Msg :=
  (dynamicTail st).drop ((dynamicTail st).length - 6)

/-- The compactor's `summary_text` local: the deterministic summary of the
joined old contents, requested at 1000 characters. -/
def compactSummary (st : SessionState) : List Char :=
  summarizeText
    (List.intercalate ("\n".toList) ((compactOldMessages st).map Msg.content)) 1000 6

/-- `SessionOrchestrator._maybe_compact_messages`: under the threshold, or
with at most `static + 6` messages, or with an empty summary, the state is
untouched; otherwise the dynamic prefix before the protected last six
messages is replaced by one synthetic system message carrying the
deterministic summary of the prefix. -/
def maybeCompactMessages (st : SessionState) : SessionState :=
  if estimateCharCount st.messages ≤ compactThreshold st.config then st
  else if st.messages.length ≤ st.static_system_messages.length + 6 then st
  else if compactSummary st = [] then st
  else
    { st with
      running_summary := compactSummary st,
      messages := st.static_system_messages ++
        (⟨Role.system, summaryMsgContent (compactSummary st), none⟩ :: compactRecent st) }

/-- The user message `_call_ollama` builds for this call. -/
def mkUserMsg (input : List Char) (images : Option (List (List Char))) : Msg :=
  ⟨Role.user, input, images⟩

/-- The message list `_call_ollama` hands to the backend:
`list(self.messages) + [user_message]` after compaction. -/
def messagesForCall (st : SessionState) (input : List Char)
    (images : Option (List (List Char))) : List Msg :=
  (maybeCompactMessages st).messages ++ [mkUserMsg input images]

/-- `SessionOrchestrator._call_ollama` with the backend abstracted as a
function from the sent message list to an optional reply (`none` models
every failure the source's `except` arms catch: process not found,
timeout/cancellation, and a malformed response dict).  Metrics, timers and
image bookkeeping are outside the model.  Messages are appended to the
buffer only after a reply is extracted. -/
def callOllama (backend : List Msg → Option (List Char)) (st : SessionState)
    (input : List Char) (images : Option (List (List Char))) :
    Option (List Char) × SessionState :=
  let st1 := maybeCompactMessages st
  match backend (st1.messages ++ [mkUserMsg input images]) with
  | none => (none, st1)
  | some reply =>
    (some reply,
     { st1 with
       messages := st1.messages ++ [mkUserMsg input images, ⟨Role.assistant, reply, none⟩] })

/-- Python `str(x)` of an optional string, as interpolated into f-strings
(`None` renders as "None"). -/
def pyOptStr (o : Option (List Char)) : List Char :=
  match o with
  | none => "None".toList
  | some s => s

/-- `result.output if result.output else result.error` (truthiness: `None`
and the empty string both fall through to the error). -/
def outputOrError (r : ToolResult) : List Char :=
  match r.output with
  | some s => if s ≠ [] then s else pyOptStr r.error
  | none => pyOptStr r.error

/-- `SessionOrchestrator._format_tool_results`. -/
def formatToolResults (results : List ToolResult) : List Char :=
  List.intercalate ("\n".toList) (results.map fun r =>
    "\nTOOL_RESULT: ".toList ++
      (if r.success then "success".toList else "error".toList) ++
      "\nOUTPUT: ".toList ++ outputOrError r ++ "\n".toList)

/-- The minimal follow-up prompt of `run` (session.py lines 364-368). -/
def followupPrompt (toolResultsText : List Char) : List Char :=
  "The tools you requested have been executed.\n\n".toList ++ toolResultsText ++
    "\n\nBased on the above tool results, provide your complete response to the user\x27s original question.".toList

/-- The tool phase of one `run` turn (session.py lines 348-369): parse the
reply; with no calls the reply stands; otherwise execute the calls in
order, format the results, and call the backend again with the minimal
follow-up prompt (restart handling and display are outside this slice). -/
def runTurnToolFollowup (registry : List Char → Option ToolFn)
    (backend : List Msg → Option (List Char)) (st : SessionState)
    (response : List Char) : Option (List Char) × SessionState :=
  let tool_calls := parseToolCalls response
  if tool_calls.isEmpty then (some response, st)
  else
    callOllama backend st
      (followupPrompt (formatToolResults (executeTools registry tool_calls))) none

/-! ### The remaining tools of `tools.py`

Each tool body wraps effectful operations (filesystem, subprocess,
network, GitHub API) in `try`/`except`; the embedding passes the observed
outcome of those operations as an explicit argument with one constructor
per control path of the source, and reproduces every
`return ToolResult(...)` site: the success flag, the output and error
texts, and the metadata dict with exactly the keys and values the source
writes.  Values the source reads off the environment (directory entries,
match lists, JSON payload fields, rendered path strings) are fields of the
outcome; the nested advisory dicts built by `_analyze_directory` and
`_analyze_file_complexity` are carried abstractly, since each sits in
full under a single top-level metadata key. -/

/-- Round-half-even of `q / d` (the exact rounding of a dyadic float),
rendered with Python\x27s one-decimal `f"..."` format applied to `q / (10 d)`. -/
def fmtOneDecimal (q d : Nat) : List Char :=
  let w := q / d
  let r := q % d
  let m := if 2 * r < d then w else if d < 2 * r then w + 1
    else if w % 2 = 0 then w else w + 1
  natStr (m / 10) ++ ('.' :: natStr (m % 10))

/-- `ToolRegistry._format_size`: repeated float division by 1024 until the
value drops below 1024, then `f"\x7bsize:.1f\x7d\x7bunit\x7d"`.  Every quotient
`n / 1024^k` is a dyadic rational, exact in a double for `n < 2^53`, so the
format equals the round-half-even first decimal of the exact quotient. -/
def formatSize (n : Nat) : List Char :=
  if n < 1024 then fmtOneDecimal (n * 10) 1 ++ ("B".toList)
  else if n < 1024 ^ 2 then fmtOneDecimal (n * 10) 1024 ++ ("KB".toList)
  else if n < 1024 ^ 3 then fmtOneDecimal (n * 10) (1024 ^ 2) ++ ("MB".toList)
  else if n < 1024 ^ 4 then fmtOneDecimal (n * 10) (1024 ^ 3) ++ ("GB".toList)
  else fmtOneDecimal (n * 10) (1024 ^ 4) ++ ("TB".toList)

/-- Python `payload.get(key, default)`: the default only replaces a missing
key. -/
def pyGetStr (o : Option (List Char)) (dflt : List Char) : List Char := o.getD dflt

/-- Python `x or default` on an optional string: `None` and the empty
string both fall through. -/
def pyOrStr (o : Option (List Char)) (dflt : List Char) : List Char :=
  match o with
  | none => dflt
  | some [] => dflt
  | some s => s

/-- The UTF-8 byte count of one character (`len(content.encode())` sums
these). -/
def utf8CharLen (c : Char) : Nat :=
  if c.toNat < 0x80 then 1 else if c.toNat < 0x800 then 2
  else if c.toNat < 0x10000 then 3 else 4

/-- `len(content.encode())`. -/
def utf8Len (s : List Char) : Nat := (s.map utf8CharLen).sum

/-- Python `f"\x7bn:6d\x7d"`: right-justify in a field of width six. -/
def rjust6 (s : List Char) : List Char := List.replicate (6 - s.length) ' ' ++ s

/-- The mojibake bullet glyph of the error-message suggestion lists
(the source file carries the glyph in mojibake form; the embedding copies
its exact code points). -/
def bulletGlyph : List Char := "\u00e2\u20ac\u00a2".toList

/-- Listing glyphs of `_read_file`, copied code point for code point from
the source (hidden entries get a two-glyph mark). -/
def glyphSymlink : List Char := "\u00f0\u0178\u201c\u017d".toList

/-- Hidden working-symlink mark. -/
def glyphSymlinkHid : List Char := "\u00f0\u0178\u2018\u00bb\u00f0\u0178\u201c\u017d".toList

/-- Broken or unreadable symlink mark. -/
def glyphLinkBad : List Char := "\u00f0\u0178\u201d\u2014".toList

/-- Hidden broken or unreadable symlink mark. -/
def glyphLinkBadHid : List Char := "\u00f0\u0178\u2018\u00bb\u00f0\u0178\u201d\u2014".toList

/-- Directory mark. -/
def glyphDir : List Char := "\u00f0\u0178\u201c".toList

/-- Hidden directory mark. -/
def glyphDirHid : List Char := "\u00f0\u0178\u2018\u00bb\u00f0\u0178\u201c".toList

/-- Regular-file mark. -/
def glyphFile : List Char := "\u00f0\u0178\u201c\u201e".toList

/-- Hidden regular-file mark. -/
def glyphFileHid : List Char := "\u00f0\u0178\u2018\u00bb\u00f0\u0178\u201c\u201e".toList

/-- The arrow between a symlink name and its target. -/
def glyphArrow : List Char := "\u00e2\u2020\u2019".toList

/-- The success banner of `_improve_self`. -/
def bannerGlyph : List Char := "\u00e2\u0153\u2026".toList

/-- `ToolRegistry._detect_file_type`, keyed on the lower-cased suffix. -/
def detectFileType (ext : List Char) : List Char :=
  let table : List (List Char × List Char) := [
    ((".png".toList), ("PNG image".toList)),
    ((".jpg".toList), ("JPEG image".toList)),
    ((".jpeg".toList), ("JPEG image".toList)),
    ((".gif".toList), ("GIF image".toList)),
    ((".bmp".toList), ("BMP image".toList)),
    ((".webp".toList), ("WebP image".toList)),
    ((".svg".toList), ("SVG image".toList)),
    ((".ico".toList), ("Icon file".toList)),
    ((".exe".toList), ("Windows executable".toList)),
    ((".dll".toList), ("Windows DLL".toList)),
    ((".so".toList), ("Shared library".toList)),
    ((".dylib".toList), ("macOS library".toList)),
    ((".bin".toList), ("Binary file".toList)),
    ((".zip".toList), ("ZIP archive".toList)),
    ((".tar".toList), ("TAR archive".toList)),
    ((".gz".toList), ("GZIP archive".toList)),
    ((".bz2".toList), ("BZIP2 archive".toList)),
    ((".7z".toList), ("7-Zip archive".toList)),
    ((".rar".toList), ("RAR archive".toList)),
    ((".pdf".toList), ("PDF document".toList)),
    ((".doc".toList), ("Word document".toList)),
    ((".docx".toList), ("Word document".toList)),
    ((".xls".toList), ("Excel spreadsheet".toList)),
    ((".xlsx".toList), ("Excel spreadsheet".toList)),
    ((".mp3".toList), ("MP3 audio".toList)),
    ((".mp4".toList), ("MP4 video".toList)),
    ((".avi".toList), ("AVI video".toList)),
    ((".mov".toList), ("QuickTime video".toList)),
    ((".wav".toList), ("WAV audio".toList)),
    ((".db".toList), ("Database file".toList)),
    ((".sqlite".toList), ("SQLite database".toList)),
    ((".sqlite3".toList), ("SQLite database".toList)),
    ((".py".toList), ("Python".toList)),
    ((".js".toList), ("JavaScript".toList)),
    ((".ts".toList), ("TypeScript".toList)),
    ((".tsx".toList), ("TypeScript React".toList)),
    ((".jsx".toList), ("JavaScript React".toList)),
    ((".java".toList), ("Java".toList)),
    ((".cpp".toList), ("C++".toList)),
    ((".c".toList), ("C".toList)),
    ((".h".toList), ("C Header".toList)),
    ((".hpp".toList), ("C++ Header".toList)),
    ((".rs".toList), ("Rust".toList)),
    ((".go".toList), ("Go".toList)),
    ((".rb".toList), ("Ruby".toList)),
    ((".php".toList), ("PHP".toList)),
    ((".swift".toList), ("Swift".toList)),
    ((".kt".toList), ("Kotlin".toList)),
    ((".scala".toList), ("Scala".toList)),
    ((".sh".toList), ("Shell Script".toList)),
    ((".bash".toList), ("Bash Script".toList)),
    ((".zsh".toList), ("Zsh Script".toList)),
    ((".json".toList), ("JSON".toList)),
    ((".xml".toList), ("XML".toList)),
    ((".yaml".toList), ("YAML".toList)),
    ((".yml".toList), ("YAML".toList)),
    ((".toml".toList), ("TOML".toList)),
    ((".ini".toList), ("INI".toList)),
    ((".md".toList), ("Markdown".toList)),
    ((".rst".toList), ("reStructuredText".toList)),
    ((".html".toList), ("HTML".toList)),
    ((".css".toList), ("CSS".toList)),
    ((".scss".toList), ("SCSS".toList)),
    ((".sass".toList), ("Sass".toList))
  ]
  match table.find? (fun p => p.1 = ext) with
  | some p => p.2
  | none =>
    if ext = [] then ("Text file".toList)
    else ("Text file (".toList ++ ext ++ (")".toList))

/-- What one `path.iterdir()` entry looks like to the listing loop of
`_read_file`: a directory, a regular file with its `stat().st_size`, a
readable symlink with its target and whether `entry.exists()`, or a
symlink whose `readlink()` raised. -/
inductive EntryKind where
  | dirE : EntryKind
  | fileE : Nat → EntryKind
  | symlinkOk : List Char → EntryKind
  | symlinkBroken : List Char → EntryKind
  | symlinkUnreadable : EntryKind
deriving Repr

/-- One directory entry: its name and kind, in the sorted order the source
establishes (directories first, then case-insensitive name). -/
structure DirEntry where
  name : List Char
  kind : EntryKind
deriving Repr

/-- `entry.name.startswith(".")`. -/
def isHiddenEntry (e : DirEntry) : Bool :=
  match e.name with
  | '.' :: _ => true
  | _ => false

/-- The line the listing loop appends for one entry. -/
def dirEntryLine (e : DirEntry) : List Char :=
  match e.kind with
  | EntryKind.symlinkOk target =>
    (if isHiddenEntry e then glyphSymlinkHid else glyphSymlink) ++
      (" ".toList) ++ e.name ++ (" ".toList) ++ glyphArrow ++ (" ".toList) ++ target
  | EntryKind.symlinkBroken target =>
    (if isHiddenEntry e then glyphLinkBadHid else glyphLinkBad) ++
      (" ".toList) ++ e.name ++ (" ".toList) ++ glyphArrow ++ (" ".toList) ++ target ++
      (" [BROKEN]".toList)
  | EntryKind.symlinkUnreadable =>
    (if isHiddenEntry e then glyphLinkBadHid else glyphLinkBad) ++
      (" ".toList) ++ e.name ++ (" [SYMLINK - cannot read target]".toList)
  | EntryKind.dirE =>
    (if isHiddenEntry e then glyphDirHid else glyphDir) ++
      (" ".toList) ++ e.name ++ ("/".toList)
  | EntryKind.fileE size =>
    (if isHiddenEntry e then glyphFileHid else glyphFile) ++
      (" ".toList) ++ e.name ++ (" (".toList) ++ formatSize size ++ (")".toList)

/-- Count of entries satisfying a predicate among those displayed. -/
def countEntries (p : DirEntry → Bool) (es : List DirEntry) : Nat := (es.filter p).length

/-- Whether the loop counts the entry as a directory. -/
def isDirEntry (e : DirEntry) : Bool :=
  match e.kind with
  | EntryKind.dirE => true
  | _ => false

/-- Whether the loop counts the entry as a regular file. -/
def isFileEntry (e : DirEntry) : Bool :=
  match e.kind with
  | EntryKind.fileE _ => true
  | _ => false

/-- Whether the loop counts the entry as a symlink (broken, working or
unreadable alike). -/
def isSymlinkEntry (e : DirEntry) : Bool :=
  match e.kind with
  | EntryKind.symlinkOk _ => true
  | EntryKind.symlinkBroken _ => true
  | EntryKind.symlinkUnreadable => true
  | _ => false

/-- Whether the loop counts the entry as a broken symlink (an unreadable
target does not increment this counter). -/
def isBrokenSymlinkEntry (e : DirEntry) : Bool :=
  match e.kind with
  | EntryKind.symlinkBroken _ => true
  | _ => false

/-- `total_size`: sizes of the displayed regular files only. -/
def dirTotalSize (es : List DirEntry) : Nat :=
  (es.map fun e =>
    match e.kind with
    | EntryKind.fileE s => s
    | _ => 0).sum

/-- The control paths of `_read_file`, one constructor per return site of
the effectful scaffolding: missing path (with the rendered parent for the
suggestion line), a listed directory (its sorted entries, `str(path)`, and
the `_analyze_directory` dict), `PermissionError` while listing, a path
that is neither file nor directory, a non-decode exception while reading,
a binary file (suffix, size, `path.name`, `str(path)`), a decoded text
file (its lines, the encoding that succeeded, `str(path)`, and the
`_analyze_file_complexity` dict), or any other exception. -/
inductive ReadOutcome where
  | missing : List Char → ReadOutcome
  | dirListing : List DirEntry → List Char → List (List Char × MetaVal) → ReadOutcome
  | dirPermission : ReadOutcome
  | notRegular : ReadOutcome
  | readRaised : List Char → ReadOutcome
  | binaryFile : List Char → Nat → List Char → List Char → ReadOutcome
  | textFile : List (List Char) → List Char → List Char → List (List Char × MetaVal) →
      ReadOutcome
  | raised : List Char → ReadOutcome

/-- `ToolRegistry._read_file`.  Directory listings cap at 100 entries and
count kinds over the displayed slice; text reads apply `offset`/`limit`
with Python truthiness (`limit=0` behaves as absent) and the default
2000-line truncation, and number lines in a six-wide field. -/
def readFile (filePath : List Char) (offset : Nat) (limit : Option Nat)
    (o : ReadOutcome) : ToolResult :=
  match o with
  | ReadOutcome.missing parent =>
    ⟨false, none,
      some (("File not found: ".toList) ++ filePath ++ ("\n\nSuggestions:\n".toList) ++
        bulletGlyph ++ (" Check the path for typos\n".toList) ++
        bulletGlyph ++ (" Use \x27glob\x27 tool to search for similar filenames\n".toList) ++
        bulletGlyph ++ (" Verify the file exists in: ".toList) ++ parent), []⟩
  | ReadOutcome.dirListing entries pathStr analysis =>
    let total := entries.length
    let isTrunc := 100 < total
    let display := if 100 < total then entries.take 100 else entries
    let listing := List.intercalate ("\n".toList) (display.map dirEntryLine)
    let formatted := listing ++
      (if 100 < total then
        ("\n\n[Directory truncated - showing first 100 of ".toList) ++ natStr total ++
          (" entries]".toList) ++
          ("\n[Use \x27glob\x27 or \x27grep\x27 to filter/search for specific files]".toList)
      else [])
    let tsize := dirTotalSize display
    ⟨true, some formatted, none,
      [(("is_directory".toList), MetaVal.b true),
       (("total_entries".toList), MetaVal.i total),
       (("shown_entries".toList), MetaVal.i display.length),
       (("truncated".toList), MetaVal.b isTrunc),
       (("subdirs".toList), MetaVal.i (countEntries isDirEntry display)),
       (("files".toList), MetaVal.i (countEntries isFileEntry display)),
       (("symlinks".toList), MetaVal.i (countEntries isSymlinkEntry display)),
       (("broken_symlinks".toList), MetaVal.i (countEntries isBrokenSymlinkEntry display)),
       (("hidden_files".toList), MetaVal.i (countEntries isHiddenEntry display)),
       (("total_size".toList), MetaVal.i tsize),
       (("total_size_formatted".toList), MetaVal.s (formatSize tsize)),
       (("path".toList), MetaVal.s pathStr),
       (("directory_analysis".toList), MetaVal.d analysis)]⟩
  | ReadOutcome.dirPermission =>
    ⟨false, none,
      some (("Permission denied: ".toList) ++ filePath ++ ("\n\nSuggestions:\n".toList) ++
        bulletGlyph ++
        (" Check file/directory permissions using \x27bash ls -la\x27\n".toList) ++
        bulletGlyph ++ (" You may need sudo access to read this directory\n".toList) ++
        bulletGlyph ++ (" Try accessing a parent or child directory instead".toList)), []⟩
  | ReadOutcome.notRegular =>
    ⟨false, none,
      some (("Not a regular file or directory: ".toList) ++ filePath ++
        ("\n\nThis path exists but is not a regular file (could be a special file, socket, etc.)\nSuggestions:\n".toList) ++
        bulletGlyph ++ (" Use \x27bash ls -la\x27 to check what type of file this is\n".toList) ++
        bulletGlyph ++ (" Try accessing the parent directory instead".toList)), []⟩
  | ReadOutcome.readRaised e =>
    ⟨false, none, some (("Error reading file: ".toList) ++ e), []⟩
  | ReadOutcome.binaryFile ext size name pathStr =>
    ⟨false,
      some (("Cannot read binary file: ".toList) ++ name ++ ("\nFile type: ".toList) ++
        detectFileType ext ++ ("\nSize: ".toList) ++ formatSize size ++
        ("\nThis appears to be a binary file (image, executable, etc.)".toList)),
      none,
      [(("is_binary".toList), MetaVal.b true),
       (("file_type".toList), MetaVal.s (detectFileType ext)),
       (("size".toList), MetaVal.i size),
       (("file_path".toList), MetaVal.s pathStr)]⟩
  | ReadOutcome.textFile lns encoding pathStr analysis =>
    let total := lns.length
    let endTrunc :=
      match limit with
      | none => if 2000 < total then (offset + 2000, true) else (total, false)
      | some l => (if l = 0 then total else offset + l, false)
    let selected := (lns.drop offset).take (endTrunc.1 - offset)
    let numbered := List.intercalate ("\n".toList)
      (selected.enum.map fun p =>
        rjust6 (natStr (p.1 + offset + 1)) ++ ('\t' :: p.2))
    let formatted := numbered ++
      (if endTrunc.2 then
        ("\n\n[Content truncated - showing first 2000 lines of ".toList) ++ natStr total ++
          ("]".toList) ++
          ("\n[Use offset and limit parameters to read other sections]".toList)
      else [])
    ⟨true, some formatted, none,
      [(("total_lines".toList), MetaVal.i total),
       (("returned_lines".toList), MetaVal.i selected.length),
       (("offset".toList), MetaVal.i offset),
       (("truncated".toList), MetaVal.b endTrunc.2),
       (("encoding".toList), MetaVal.s encoding),
       (("encoding_guessed".toList), MetaVal.b (decide (encoding ≠ "utf-8".toList))),
       (("file_path".toList), MetaVal.s pathStr),
       (("file_analysis".toList), MetaVal.d analysis)]⟩
  | ReadOutcome.raised e =>
    ⟨false, none, some (("Error reading file: ".toList) ++ e), []⟩

/-- `_write_file` either writes (yielding `str(path)`) or raises. -/
inductive WriteOutcome where
  | ok : List Char → WriteOutcome
  | raised : List Char → WriteOutcome

/-- `ToolRegistry._write_file`. -/
def writeFile (filePath content : List Char) (o : WriteOutcome) : ToolResult :=
  match o with
  | WriteOutcome.ok pathStr =>
    ⟨true, some (("Created ".toList) ++ filePath), none,
      [(("file_path".toList), MetaVal.s pathStr),
       (("bytes_written".toList), MetaVal.i (utf8Len content)),
       (("lines".toList), MetaVal.i (pySplitlines content).length)]⟩
  | WriteOutcome.raised e =>
    ⟨false, none, some (("Error writing file: ".toList) ++ e), []⟩

/-- One `glob` hit as the result loop sees it: its rendered path (after
the all-or-nothing `relative_to` step), whether it is a regular file, and
its lower-cased suffix. -/
structure GlobEntry where
  pathStr : List Char
  isFile : Bool
  suffixLower : List Char
deriving Repr

/-- Python dict counting (`d[k] = d.get(k, 0) + 1`): insertion order kept,
existing keys bumped in place. -/
def bumpCount : List (List Char × Nat) → List Char → List (List Char × Nat)
  | [], k => [(k, 1)]
  | (k0, n) :: rest, k =>
    if k0 = k then (k0, n + 1) :: rest else (k0, n) :: bumpCount rest k

/-- The `file_types` distribution of `_glob` (regular files only, empty
suffix keyed `no_extension`). -/
def globFileTypes (ms : List GlobEntry) : List (List Char × Nat) :=
  ms.foldl
    (fun acc m =>
      if m.isFile then
        bumpCount acc (if m.suffixLower = [] then ("no_extension".toList) else m.suffixLower)
      else acc) []

/-- Control paths of `_glob`: missing search path, a match list (already
in the mtime order the source sorts into, with `str(search_path)`), or an
exception. -/
inductive GlobOutcome where
  | pathMissing : GlobOutcome
  | ok : List Char → List GlobEntry → GlobOutcome
  | raised : List Char → GlobOutcome

/-- `ToolRegistry._glob`. -/
def globTool (pattern : List Char) (path : Option (List Char))
    (o : GlobOutcome) : ToolResult :=
  match o with
  | GlobOutcome.pathMissing =>
    ⟨false, none, some (("Path not found: ".toList) ++ pyOptStr path), []⟩
  | GlobOutcome.ok spath ms =>
    let count := ms.length
    let qa :=
      if count = 0 then (("no_matches".toList), ("refine_pattern".toList))
      else if 100 < count then (("too_many".toList), ("narrow_pattern".toList))
      else if 20 < count then (("many".toList), ("review_carefully".toList))
      else (("good".toList), ("can_review_all".toList))
    let md :=
      [(("count".toList), MetaVal.i count),
       (("pattern".toList), MetaVal.s pattern),
       (("search_path".toList), MetaVal.s spath),
       (("result_analysis".toList), MetaVal.d
         [(("quality".toList), MetaVal.s qa.1),
          (("file_type_distribution".toList), MetaVal.d
            ((globFileTypes ms).map fun p => (p.1, MetaVal.i p.2))),
          (("suggested_action".toList), MetaVal.s qa.2)])]
    if ms.map GlobEntry.pathStr = [] then
      ⟨true, some ("No files found".toList), none, md⟩
    else
      ⟨true, some (List.intercalate ("\n".toList) (ms.map GlobEntry.pathStr)), none, md⟩
  | GlobOutcome.raised e =>
    ⟨false, none, some (("Error searching files: ".toList) ++ e), []⟩

/-- One `grep` hit as stored by the match loop: rendered file name, the
1-based line number, the line, and the context slice (`None` when no
context was requested). -/
structure GrepMatch where
  file : List Char
  lineNumber : Nat
  line : List Char
  context : Option (List (List Char))
deriving Repr

/-- The output block for one grep match: the `file:line: text` header and,
when context was requested and the stored slice is truthy, the indented
context lines followed by a blank separator. -/
def grepMatchLines (ctx : Nat) (m : GrepMatch) : List (List Char) :=
  (m.file ++ (":".toList) ++ natStr m.lineNumber ++ (": ".toList) ++ m.line) ::
    (if 0 < ctx then
      match m.context with
      | some (c :: cs) => ((c :: cs).map fun l => ("    ".toList) ++ l) ++ [[]]
      | _ => []
    else [])

/-- Control paths of `_grep`. -/
inductive GrepOutcome where
  | pathMissing : GrepOutcome
  | ok : List Char → List GrepMatch → GrepOutcome
  | raised : List Char → GrepOutcome

/-- `ToolRegistry._grep`.  The average-matches float is kept exact as a
numerator/denominator pair. -/
def grepTool (pattern : List Char) (path : Option (List Char)) (ctx : Nat)
    (o : GrepOutcome) : ToolResult :=
  match o with
  | GrepOutcome.pathMissing =>
    ⟨false, none, some (("Path not found: ".toList) ++ pyOptStr path), []⟩
  | GrepOutcome.ok spath ms =>
    if ms.isEmpty then
      ⟨true, some ("No matches found".toList), none,
        [(("count".toList), MetaVal.i 0), (("pattern".toList), MetaVal.s pattern)]⟩
    else
      let output := List.intercalate ("\n".toList)
        (ms.foldr (fun m acc => grepMatchLines ctx m ++ acc) [])
      let uniq := (ms.foldl (fun acc m => bumpCount acc m.file) []).length
      let qam :=
        if 200 < ms.length then
          (("overwhelming".toList), ("narrow_pattern_or_path".toList), ("balanced".toList))
        else if 50 < ms.length then
          (("many".toList), ("consider_chunking".toList), ("fast".toList))
        else if 10 < ms.length then
          (("moderate".toList), ("review_carefully".toList), ("fast".toList))
        else (("focused".toList), ("can_review_all".toList), ("fast".toList))
      ⟨true, some output, none,
        [(("count".toList), MetaVal.i ms.length),
         (("pattern".toList), MetaVal.s pattern),
         (("search_path".toList), MetaVal.s spath),
         (("result_analysis".toList), MetaVal.d
           [(("quality".toList), MetaVal.s qam.1),
            (("unique_files".toList), MetaVal.i uniq),
            (("matches_per_file_avg".toList),
              if 0 < uniq then MetaVal.frac ms.length uniq else MetaVal.i 0),
            (("suggested_action".toList), MetaVal.s qam.2.1),
            (("suggested_model".toList), MetaVal.s qam.2.2)])]⟩
  | GrepOutcome.raised e =>
    ⟨false, none, some (("Error searching: ".toList) ++ e), []⟩

/-- One DuckDuckGo result dict; `results.get` defaults fill missing keys. -/
structure SearchHit where
  title : Option (List Char)
  body : Option (List Char)
  href : Option (List Char)
deriving Repr

/-- Control paths of `_web_search`. -/
inductive WebSearchOutcome where
  | ok : List SearchHit → WebSearchOutcome
  | raised : List Char → WebSearchOutcome

/-- `ToolRegistry._web_search`. -/
def webSearch (query : List Char) (o : WebSearchOutcome) : ToolResult :=
  match o with
  | WebSearchOutcome.ok results =>
    if results.isEmpty then
      ⟨true, some ("No results found".toList), none,
        [(("count".toList), MetaVal.i 0), (("query".toList), MetaVal.s query)]⟩
    else
      let formatted := results.enum.foldr
        (fun p acc =>
          (natStr (p.1 + 1) ++ (". **".toList) ++
              pyGetStr p.2.title ("No title".toList) ++ ("**".toList)) ::
            (("   ".toList) ++ pyGetStr p.2.body ("No description".toList)) ::
            (("   URL: ".toList) ++ pyGetStr p.2.href ("No URL".toList) ++ ("\n".toList)) ::
            acc) []
      ⟨true, some (List.intercalate ("\n".toList) formatted), none,
        [(("count".toList), MetaVal.i results.length), (("query".toList), MetaVal.s query)]⟩
  | WebSearchOutcome.raised e =>
    ⟨false, none, some (("Web search failed: ".toList) ++ e), []⟩

/-- The JSON payload a reachable Jina proxy returns: optional `title`,
`text` (missing defaults to empty), optional `url`, and the
`status_code` / `elapsed_seconds` fields carried as the JSON values the
proxy sent. -/
structure JinaPayload where
  title : Option (List Char)
  text : List Char
  urlField : Option (List Char)
  statusCode : MetaVal
  elapsed : MetaVal
deriving Repr

/-- Control paths of `_web_fetch_via_jina`. -/
inductive JinaOutcome where
  | ok : JinaPayload → JinaOutcome
  | raised : List Char → JinaOutcome

/-- `ToolRegistry._web_fetch_via_jina` (the endpoint only shapes the proxy
request URL). -/
def webFetchViaJina (url endpoint : List Char) (o : JinaOutcome) : ToolResult :=
  match o with
  | JinaOutcome.ok p =>
    if p.text = [] then
      ⟨false, none, some ("Jina proxy returned empty text".toList), []⟩
    else
      let text :=
        if 10000 < p.text.length then
          p.text.take 10000 ++
            ("\n\n[Content truncated by twin at 10,000 characters]".toList)
        else p.text
      ⟨true,
        some (("Title: ".toList) ++ pyOrStr p.title ("Untitled".toList) ++
          ("\n\n".toList) ++ text),
        none,
        [(("source".toList), MetaVal.s ("jina-rapid".toList)),
         (("url".toList), MetaVal.s (pyGetStr p.urlField url)),
         (("status_code".toList), p.statusCode),
         (("elapsed_seconds".toList), p.elapsed)]⟩
  | JinaOutcome.raised e =>
    ⟨false, none, some (("Jina rapid fetch failed: ".toList) ++ e), []⟩

/-- Control paths of the built-in fallback of `_web_fetch`: an HTML page
converted to markdown, a non-HTML response (raw text and content type), or
an exception. -/
inductive FetchOutcome where
  | html : List Char → FetchOutcome
  | raw : List Char → List Char → FetchOutcome
  | raised : List Char → FetchOutcome

/-- The `requests`-based body of `_web_fetch`. -/
def webFetchFallback (url : List Char) (o : FetchOutcome) : ToolResult :=
  match o with
  | FetchOutcome.html markdown =>
    let md1 :=
      if 10000 < markdown.length then
        markdown.take 10000 ++ ("\n\n[Content truncated - too long]".toList)
      else markdown
    ⟨true, some md1, none,
      [(("url".toList), MetaVal.s url), (("length".toList), MetaVal.i md1.length)]⟩
  | FetchOutcome.raw text contentType =>
    ⟨true, some (text.take 10000), none,
      [(("url".toList), MetaVal.s url),
       (("content_type".toList), MetaVal.s contentType)]⟩
  | FetchOutcome.raised e =>
    ⟨false, none, some (("Failed to fetch URL: ".toList) ++ e), []⟩

/-- `ToolRegistry._web_fetch`: with a configured `TWIN_JINA_RAPID_URL` the
proxy result is returned when successful, any proxy failure falls through
to the built-in fetcher. -/
def webFetch (url : List Char) (jinaEndpoint : Option (List Char))
    (jo : JinaOutcome) (fo : FetchOutcome) : ToolResult :=
  match jinaEndpoint with
  | some ep =>
    let r := webFetchViaJina url ep jo
    if r.success then r else webFetchFallback url fo
  | none => webFetchFallback url fo

/-- One GitHub code-search result. -/
structure CodeHit where
  repoFullName : List Char
  path : List Char
  htmlUrl : List Char
deriving Repr

/-- Control paths of `_gh_search_code`. -/
inductive GhSearchOutcome where
  | notConfigured : GhSearchOutcome
  | ok : List CodeHit → GhSearchOutcome
  | raised : List Char → GhSearchOutcome

/-- `ToolRegistry._gh_search_code` (`repo` only narrows the query sent;
the loop caps at ten results). -/
def ghSearchCode (query : List Char) (repo : Option (List Char))
    (o : GhSearchOutcome) : ToolResult :=
  match o with
  | GhSearchOutcome.notConfigured =>
    ⟨false, none, some ("GitHub not configured (missing GITHUB_TOKEN)".toList), []⟩
  | GhSearchOutcome.ok results =>
    let shown := results.take 10
    let formatted := shown.enum.foldr
      (fun p acc =>
        (natStr (p.1 + 1) ++ (". ".toList) ++ p.2.repoFullName ++ ("/".toList) ++
            p.2.path) ::
          (("   ".toList) ++ p.2.htmlUrl ++ ("\n".toList)) :: acc) []
    if formatted = [] then
      ⟨true, some ("No results found".toList), none,
        [(("count".toList), MetaVal.i 0)]⟩
    else
      ⟨true, some (List.intercalate ("\n".toList) formatted), none,
        [(("count".toList), MetaVal.i shown.length),
         (("query".toList), MetaVal.s query)]⟩
  | GhSearchOutcome.raised e =>
    ⟨false, none, some (("GitHub search failed: ".toList) ++ e), []⟩

/-- The pull-request fields `_gh_get_pr` renders. -/
structure PrInfo where
  number : Int
  title : List Char
  state : List Char
  author : List Char
  createdAt : List Char
  body : Option (List Char)
  changedFiles : Int
  commits : Int
  comments : Int
  additions : Int
  deletions : Int
deriving Repr

/-- Control paths of `_gh_get_pr`. -/
inductive GhPrOutcome where
  | notConfigured : GhPrOutcome
  | ok : PrInfo → GhPrOutcome
  | raised : List Char → GhPrOutcome

/-- `ToolRegistry._gh_get_pr`. -/
def ghGetPr (repo : List Char) (prNumber : Int) (o : GhPrOutcome) : ToolResult :=
  match o with
  | GhPrOutcome.notConfigured =>
    ⟨false, none, some ("GitHub not configured (missing GITHUB_TOKEN)".toList), []⟩
  | GhPrOutcome.ok pr =>
    ⟨true,
      some (("# PR #".toList) ++ intStr pr.number ++ (": ".toList) ++ pr.title ++
        ("\n\n**Status:** ".toList) ++ pr.state ++
        ("\n**Author:** ".toList) ++ pr.author ++
        ("\n**Created:** ".toList) ++ pr.createdAt ++
        ("\n\n## Description\n".toList) ++ pyOrStr pr.body ("No description".toList) ++
        ("\n\n## Stats\n- Files Changed: ".toList) ++ intStr pr.changedFiles ++
        ("\n- Commits: ".toList) ++ intStr pr.commits ++
        ("\n- Comments: ".toList) ++ intStr pr.comments ++
        ("\n- Additions: +".toList) ++ intStr pr.additions ++
        ("\n- Deletions: -".toList) ++ intStr pr.deletions ++ ("\n".toList)),
      none,
      [(("pr_number".toList), MetaVal.i prNumber),
       (("repo".toList), MetaVal.s repo)]⟩
  | GhPrOutcome.raised e =>
    ⟨false, none, some (("Failed to get PR: ".toList) ++ e), []⟩

/-- Control paths of `_improve_self`: the improver is absent, a proposed
improvement landed (commit hash, improvement id, diff, changed files), or
`propose_improvement` raised. -/
inductive ImproveOutcome where
  | notAvailable : ImproveOutcome
  | ok : List Char → List Char → List Char → List (List Char) → ImproveOutcome
  | raised : List Char → ImproveOutcome

/-- `ToolRegistry._improve_self`: the sole writer of the
`requires_restart` metadata flag, set (with `auto_committed`) only on the
success path. -/
def improveSelf (description reasoning : List Char) (files : J)
    (o : ImproveOutcome) : ToolResult :=
  match o with
  | ImproveOutcome.notAvailable =>
    ⟨false, none, some ("Self-improvement not available".toList), []⟩
  | ImproveOutcome.ok commitHash improvementId diff filesChanged =>
    ⟨true,
      some (("\n".toList) ++ bannerGlyph ++ (" Improvement ".toList) ++ improvementId ++
        (" applied and committed\n\n**Commit:** ".toList) ++ commitHash.take 7 ++
        ("\n**Files Changed:** ".toList) ++
        List.intercalate (", ".toList) filesChanged ++
        ("\n\n**Changes Made:**\n```diff\n".toList) ++ diff ++
        ("\n```\n\nSee IMPROVEMENTS.md for full details.\n".toList)),
      none,
      [(("auto_committed".toList), MetaVal.b true),
       (("requires_restart".toList), MetaVal.b true),
       (("commit_hash".toList), MetaVal.s commitHash),
       (("improvement_id".toList), MetaVal.s improvementId)]⟩
  | ImproveOutcome.raised e =>
    ⟨false, none, some (("Self-improvement failed: ".toList) ++ e), []⟩

/-- The structured tool-call reply that the repository's own unit test
(`test_session_tools_parsing.test_parse_structured_tool_call_valid`) feeds
to `_parse_tool_calls`: a fenced JSON block declaring one `bash` call. -/
def structuredReply : List Char :=
  ("```json\n\x7b\"tool_calls\": [\x7b\"name\": \"bash\", \"args\": \x7b\"command\": \"echo ok\"\x7d\x7d]\x7d\n```").toList

/-- A conversation over the compaction threshold (one-token context
window) whose compactable prefix is tiny: one two-character old message
before six one-character protected ones, so the synthetic summary message
is longer than the prefix it replaces. -/
def smallBudgetState : SessionState where
  messages :=
    ⟨Role.user, "hi".toList, none⟩ :: List.replicate 6 ⟨Role.user, "a".toList, none⟩
  static_system_messages := []
  running_summary := []
  config := { generation_params := { num_ctx := some 1 } }

/-- A compactable conversation whose old prefix is large (1100 characters),
behind one static system message. -/
def largePrefixState : SessionState where
  messages :=
    ⟨Role.system, "S".toList, none⟩ ::
      ⟨Role.user, List.replicate 1100 'a', none⟩ ::
        List.replicate 6 ⟨Role.user, "m".toList, none⟩
  static_system_messages := [⟨Role.system, "S".toList, none⟩]
  running_summary := []
  config := { generation_params := { num_ctx := some 1 } }

/-- A buffer holding one earlier user turn, with the default (large)
context window so that compaction never fires. -/
def oneMessageState : SessionState where
  messages := [⟨Role.user, "earlier".toList, none⟩]
  static_system_messages := []
  running_summary := []
  config := {}

/-- A probe backend that replies with the number of messages it was sent. -/
def backendProbe : List Msg → Option (List Char) :=
  fun msgs => some (natStr msgs.length)

/-- Characters that may legally follow a JSON value inside an enclosing
object or array (inter-token whitespace, the separators, the closers);
none of them can extend a numeral match. -/
def safeStop (c : Char) : Bool := isJsonWs c || c = ',' || c = '}' || c = ']'

/-- A reply with two legacy pairs of which the second has malformed JSON. -/
def twoPairReply : List Char :=
  ("TOOL_CALL: read\nARGS: \x7b\"file_path\": \"a.md\"\x7d\nTOOL_CALL: read\nARGS: \x7bbad\x7d").toList

/-- The first (well-formed) match of `twoPairReply`. -/
def goodMatch : RawMatch := ⟨"read".toList, ("\x7b\"file_path\": \"a.md\"\x7d").toList⟩

/-- The second (malformed) match of `twoPairReply`. -/
def badMatch : RawMatch := ⟨"read".toList, ("\x7bbad\x7d").toList⟩

/-- The text after the opening brace of the nested-object args literal
`\x7b"files": \x7b"a": "b"\x7d\x7d` (the shape `improve_self` receives). -/
def nestedArgsBody : List Char := "\"files\": \x7b\"a\": \"b\"\x7d\x7d".toList

/-- The value `json.loads` returns for the full nested-object args literal. -/
def nestedArgsVal : J := J.obj [("files".toList, J.obj [("a".toList, J.str ("b".toList))])]

/-! ## Theorems -/

/-- C1: evaluation of `_parse_tool_calls` at the repository's own unit-test
input for the structured form.  The parser has no branch for the fenced
JSON block: its only pattern is the legacy `TOOL_CALL`/`ARGS` regex, which
does not match this reply, so the parser returns no calls where the test
(and the specification) require exactly the one declared `bash` call. -/
theorem parse_tool_calls_ignores_structured_block :
    parseToolCalls structuredReply = [] := rfl

/-! ### Occurrence counting and single replacement (`str.count` / `str.replace`) -/

theorem pyCountAux_skip (old : List Char) :
    ∀ (s : List Char) (k : Nat), pyCountAux old s k = pyCountAux old (s.drop k) 0 := by
  intro s
  induction s with
  | nil => intro k; simp [pyCountAux]
  | cons c rest ih =>
    intro k
    cases k with
    | zero => rfl
    | succ k' => simpa [pyCountAux] using ih k'

theorem pyReplaceAux_skip (old new : List Char) :
    ∀ (s : List Char) (k : Nat),
      pyReplaceAux old new s k = pyReplaceAux old new (s.drop k) 0 := by
  intro s
  induction s with
  | nil => intro k; simp [pyReplaceAux]
  | cons c rest ih =>
    intro k
    cases k with
    | zero => rfl
    | succ k' => simpa [pyReplaceAux] using ih k'

theorem pyReplaceAux_of_count_zero (old new : List Char) :
    ∀ s, pyCountAux old s 0 = 0 → pyReplaceAux old new s 0 = s := by
  intro s
  induction s with
  | nil => intro _; rfl
  | cons c rest ih =>
    intro h
    by_cases hp : old.isPrefixOf (c :: rest)
    · simp [pyCountAux, hp] at h
    · simp only [pyCountAux, if_neg hp] at h
      simp [pyReplaceAux, hp, ih h]

/-- If `old` is a prefix of `c :: rest`, the tail after the occurrence is
what the skip counter passes over. -/
theorem drop_of_prefix_cons (old t : List Char) (c : Char) {rest : List Char}
    (hOld : old ≠ []) (ht : old ++ t = c :: rest) :
    rest.drop (old.length - 1) = t := by
  cases old with
  | nil => exact absurd rfl hOld
  | cons o os =>
    have h1 : os ++ t = rest := by
      have h2 := ht
      simp only [List.cons_append, List.cons.injEq] at h2
      exact h2.2
    subst h1
    simp [List.drop_left]

theorem pyCount_one_decomp (old new : List Char) (hOld : old ≠ []) :
    ∀ s, pyCountAux old s 0 = 1 →
      ∃ p q, s = p ++ old ++ q ∧ pyReplaceAux old new s 0 = p ++ new ++ q := by
  intro s
  induction s with
  | nil => intro h; simp [pyCountAux] at h
  | cons c rest ih =>
    intro h
    by_cases hp : old.isPrefixOf (c :: rest)
    · obtain ⟨t, ht⟩ := List.isPrefixOf_iff_prefix.mp hp
      have hdrop : rest.drop (old.length - 1) = t := drop_of_prefix_cons old t c hOld ht
      have hz : pyCountAux old t 0 = 0 := by
        have h1 : pyCountAux old (c :: rest) 0 =
            pyCountAux old (rest.drop (old.length - 1)) 0 + 1 := by
          simp only [pyCountAux, if_pos hp]
          rw [pyCountAux_skip]
        rw [h1, hdrop] at h
        omega
      refine ⟨[], t, by simpa using ht.symm, ?_⟩
      simp only [pyReplaceAux, if_pos hp]
      rw [pyReplaceAux_skip, hdrop, pyReplaceAux_of_count_zero old new t hz]
      simp
    · simp only [pyCountAux, if_neg hp] at h
      obtain ⟨p, q, hs, hr⟩ := ih h
      refine ⟨c :: p, q, by simp [hs], ?_⟩
      simp only [pyReplaceAux, if_neg hp]
      simp [hr]

/-- C4: `edit(path, old, new)` fails with the "not found" error when `old`
does not occur in the file, fails with the "ambiguous" error when `old`
occurs more than once, and otherwise succeeds performing exactly one
substitution of `old` by `new`; on both failure paths the file content is
returned unchanged (occurrence counting is Python's non-overlapping
`str.count`). -/
theorem edit_file_spec (fp old new content : List Char) :
    (pyCount old content = 0 →
      editFile fp old new (some content) =
        (⟨false, none,
          some ("String not found in file: \x27".toList ++ old.take 50 ++ "...\x27".toList),
          []⟩, some content)) ∧
    (1 < pyCount old content →
      editFile fp old new (some content) =
        (⟨false, none,
          some ("String appears ".toList ++ natStr (pyCount old content) ++
            " times. Be more specific or use replace_all.".toList), []⟩, some content)) ∧
    (pyCount old content = 1 →
      ∃ p q, content = p ++ old ++ q ∧
        editFile fp old new (some content) =
          (⟨true, some ("Edited ".toList ++ fp), none,
            [("file_path".toList, MetaVal.s fp),
             ("replacements".toList, MetaVal.i 1),
             ("old_length".toList, MetaVal.i old.length),
             ("new_length".toList, MetaVal.i new.length)]⟩,
           some (p ++ new ++ q))) := by
  refine ⟨fun h0 => ?_, fun h2 => ?_, fun h1 => ?_⟩
  · simp [editFile, h0]
  · have h0 : ¬ pyCount old content = 0 := by omega
    simp [editFile, h0, h2]
  · by_cases hOld : old = []
    · subst hOld
      have hc : content = [] := by
        simp [pyCount] at h1
        exact h1
      subst hc
      refine ⟨[], [], rfl, ?_⟩
      simp [editFile, pyCount, pyReplace]
    · have hcnt : pyCountAux old content 0 = 1 := by
        simpa [pyCount, hOld] using h1
      obtain ⟨p, q, hs, hr⟩ := pyCount_one_decomp old new hOld content hcnt
      refine ⟨p, q, hs, ?_⟩
      simp [editFile, h1, pyReplace, hOld, hr]

/-- Witness for `edit_file_spec`: a unique occurrence is replaced once. -/
theorem edit_file_spec_witness :
    pyCount ("world".toList) ("hello world".toList) = 1 ∧
      ∃ p q, "hello world".toList = p ++ "world".toList ++ q ∧
        editFile ("f.txt".toList) ("world".toList) ("Lean".toList)
            (some ("hello world".toList)) =
          (⟨true, some ("Edited ".toList ++ "f.txt".toList), none,
            [("file_path".toList, MetaVal.s ("f.txt".toList)),
             ("replacements".toList, MetaVal.i 1),
             ("old_length".toList, MetaVal.i (("world".toList).length : Nat)),
             ("new_length".toList, MetaVal.i (("Lean".toList).length : Nat))]⟩,
           some (p ++ "Lean".toList ++ q)) :=
  ⟨by decide,
   (edit_file_spec ("f.txt".toList) ("world".toList) ("Lean".toList)
      ("hello world".toList)).2.2 (by decide)⟩

/-- C7: executing a list of parsed tool calls is total — a registry miss
yields the distinct "Unknown tool" failed result, an exception raised by a
tool body is converted into a failed result carrying the exception message,
a returned result is passed through — and exactly one result is produced
per call, in call order. -/
theorem execute_tools_spec (registry : List Char → Option ToolFn) (calls : List ToolCall) :
    (executeTools registry calls).length = calls.length ∧
    executeTools registry calls = calls.map (executeToolCall registry) ∧
    (∀ call, registry call.tool = none →
      executeToolCall registry call =
        ⟨false, none, some ("Unknown tool: ".toList ++ call.tool), []⟩) ∧
    (∀ call f e, registry call.tool = some f → f call.args = Except.error e →
      executeToolCall registry call = ⟨false, none, some e, []⟩) ∧
    (∀ call f r, registry call.tool = some f → f call.args = Except.ok r →
      executeToolCall registry call = r) := by
  refine ⟨?_, ?_, ?_, ?_, ?_⟩
  · induction calls with
    | nil => rfl
    | cons c rest ih => simp [executeTools, ih]
  · induction calls with
    | nil => rfl
    | cons c rest ih => simp [executeTools, ih]
  · intro call h; simp [executeToolCall, h]
  · intro call f e hf he; simp [executeToolCall, hf, he]
  · intro call f r hf hr; simp [executeToolCall, hf, hr]

/-- Witness for `execute_tools_spec`: a raising tool and an unknown name. -/
theorem execute_tools_spec_witness :
    (fun name => if name = "boom".toList
        then some (fun _ => Except.error ("kaboom".toList)) else (none : Option ToolFn))
        (("boom".toList : List Char)) =
      some (fun _ => Except.error ("kaboom".toList)) ∧
    (fun _ : J => Except.error ("kaboom".toList)) (J.obj []) =
      (Except.error ("kaboom".toList) : Except (List Char) ToolResult) ∧
    executeToolCall
        (fun name => if name = "boom".toList
          then some (fun _ => Except.error ("kaboom".toList)) else none)
        ⟨"boom".toList, J.obj []⟩ =
      ⟨false, none, some ("kaboom".toList), []⟩ := by
  refine ⟨by simp, rfl, ?_⟩
  exact (execute_tools_spec
      (fun name => if name = "boom".toList
        then some (fun _ => Except.error ("kaboom".toList)) else none) []).2.2.2.1
    ⟨"boom".toList, J.obj []⟩ (fun _ => Except.error ("kaboom".toList))
    ("kaboom".toList) (by simp) rfl

/-- C8: `bash(command, timeout=T)` distinguishes timeout from non-zero
exit: non-zero exit fails with the exit-code message, the merged
stdout-plus-labelled-stderr output, and the exit code in metadata; timeout
fails with the distinct timeout message; zero exit succeeds with the merged
output and exit code 0 in metadata.  The two failure messages differ for
every exit code and timeout value. -/
theorem bash_tool_spec (command out err : List Char) (timeout : Nat) (rc : Int) :
    (rc ≠ 0 → bashTool command timeout (BashOutcome.completed out err rc) =
      ⟨false, some (out ++ (if err ≠ [] then "\n[stderr]\n".toList ++ err else [])),
        some ("Command failed with code ".toList ++ intStr rc),
        [("returncode".toList, MetaVal.i rc),
         ("command".toList, MetaVal.s command),
         ("timeout".toList, MetaVal.i timeout)]⟩) ∧
    (bashTool command timeout BashOutcome.timedOut =
      ⟨false, none,
        some ("Command timed out after ".toList ++ natStr timeout ++ "s".toList), []⟩) ∧
    (bashTool command timeout (BashOutcome.completed out err 0) =
      ⟨true, some (out ++ (if err ≠ [] then "\n[stderr]\n".toList ++ err else [])), none,
        [("returncode".toList, MetaVal.i 0),
         ("command".toList, MetaVal.s command),
         ("timeout".toList, MetaVal.i timeout)]⟩) ∧
    ("Command failed with code ".toList ++ intStr rc ≠
      "Command timed out after ".toList ++ natStr timeout ++ "s".toList) := by
  refine ⟨fun h => by simp [bashTool, h], rfl, by simp [bashTool], fun h => ?_⟩
  have h8 := congrArg (fun l : List Char => l[8]?) h
  simp only [List.getElem?_append_left (by decide : (8 : Nat) < ("Command failed with code ".toList).length),
    List.getElem?_append_left (by decide : (8 : Nat) < ("Command timed out after ".toList).length),
    List.append_assoc] at h8
  simp at h8

/-- Witness for `bash_tool_spec` at exit code 1. -/
theorem bash_tool_spec_witness :
    (1 : Int) ≠ 0 ∧
      bashTool ("false".toList) 120 (BashOutcome.completed [] [] 1) =
        ⟨false, some ([] ++ (if ([] : List Char) ≠ [] then "\n[stderr]\n".toList ++ [] else [])),
          some ("Command failed with code ".toList ++ intStr 1),
          [("returncode".toList, MetaVal.i 1),
           ("command".toList, MetaVal.s ("false".toList)),
           ("timeout".toList, MetaVal.i 120)]⟩ :=
  ⟨by decide, (bash_tool_spec ("false".toList) [] [] 120 1).1 (by decide)⟩

/-! ### Independence of legacy pairs (`_parse_tool_calls`) -/

theorem filterMap_decode_all_some :
    ∀ (l : List RawMatch), (∀ x ∈ l, (jsonLoads x.capture).isSome = true) →
      (l.filterMap decodeMatch).length = l.length ∧
      ∀ c ∈ l.filterMap decodeMatch,
        ∃ x ∈ l, c.tool = x.name ∧ jsonLoads x.capture = some c.args := by
  intro l
  induction l with
  | nil => intro _; exact ⟨rfl, by simp⟩
  | cons a t ih =>
    intro h
    obtain ⟨j, hj⟩ := Option.isSome_iff_exists.mp (h a (List.mem_cons_self a t))
    have hd : decodeMatch a = some ⟨a.name, j⟩ := by simp [decodeMatch, hj]
    obtain ⟨ihl, ihm⟩ := ih fun x hx => h x (List.mem_cons_of_mem _ hx)
    constructor
    · simp [List.filterMap_cons, hd, ihl]
    · intro c hc
      rw [List.filterMap_cons, hd] at hc
      rcases List.mem_cons.mp hc with hc1 | hc2
      · subst hc1
        exact ⟨a, List.mem_cons_self a t, rfl, hj⟩
      · obtain ⟨x, hx, h1, h2⟩ := ihm c hc2
        exact ⟨x, List.mem_cons_of_mem _ hx, h1, h2⟩

/-- C5: for a reply whose legacy matches split as well-formed pairs around
one malformed pair, the parser returns exactly the decodings of the
well-formed pairs in order — one fewer call than there are pairs — and
every returned call originates from a well-formed sibling, never from the
malformed pair; decoding of each pair is independent of its siblings. -/
theorem parse_tool_calls_skips_malformed (response : List Char)
    (l₁ l₂ : List RawMatch) (m : RawMatch)
    (hm : findMatches response = l₁ ++ m :: l₂)
    (h₁ : ∀ x ∈ l₁, (jsonLoads x.capture).isSome = true)
    (h₂ : ∀ x ∈ l₂, (jsonLoads x.capture).isSome = true)
    (hbad : jsonLoads m.capture = none) :
    parseToolCalls response = l₁.filterMap decodeMatch ++ l₂.filterMap decodeMatch ∧
    (parseToolCalls response).length = l₁.length + l₂.length ∧
    ∀ c ∈ parseToolCalls response,
      ∃ x, (x ∈ l₁ ∨ x ∈ l₂) ∧ c.tool = x.name ∧ jsonLoads x.capture = some c.args := by
  have hmnone : decodeMatch m = none := by simp [decodeMatch, hbad]
  have hsplit : parseToolCalls response =
      l₁.filterMap decodeMatch ++ l₂.filterMap decodeMatch := by
    rw [parseToolCalls, hm, List.filterMap_append, List.filterMap_cons, hmnone]
  obtain ⟨hl₁, hc₁⟩ := filterMap_decode_all_some l₁ h₁
  obtain ⟨hl₂, hc₂⟩ := filterMap_decode_all_some l₂ h₂
  refine ⟨hsplit, by rw [hsplit, List.length_append, hl₁, hl₂], ?_⟩
  intro c hc
  rw [hsplit] at hc
  rcases List.mem_append.mp hc with h | h
  · obtain ⟨x, hx, ha, hb⟩ := hc₁ c h
    exact ⟨x, Or.inl hx, ha, hb⟩
  · obtain ⟨x, hx, ha, hb⟩ := hc₂ c h
    exact ⟨x, Or.inr hx, ha, hb⟩

/-- Witness for `parse_tool_calls_skips_malformed` on `twoPairReply`. -/
theorem parse_tool_calls_skips_malformed_witness :
    findMatches twoPairReply = [goodMatch] ++ badMatch :: [] ∧
    jsonLoads badMatch.capture = none ∧
    (parseToolCalls twoPairReply =
        [goodMatch].filterMap decodeMatch ++ ([] : List RawMatch).filterMap decodeMatch ∧
      (parseToolCalls twoPairReply).length = [goodMatch].length + ([] : List RawMatch).length ∧
      ∀ c ∈ parseToolCalls twoPairReply,
        ∃ x, (x ∈ [goodMatch] ∨ x ∈ ([] : List RawMatch)) ∧
          c.tool = x.name ∧ jsonLoads x.capture = some c.args) :=
  ⟨by decide, rfl,
   parse_tool_calls_skips_malformed twoPairReply [goodMatch] [] badMatch
     (by decide) (by decide) (by decide) rfl⟩

/-! ### Determinism of the JSON scanner under input extension

A scan that stopped at a character inside its input behaves identically
when more text is appended; numerals are the one token kind whose extent
can grow at the end of input, which is why the lemmas about them require a
`safeStop` character after the token. -/

theorem dropWhile_cons_append {α} (p : α → Bool) (x t : List α) (c : α) (cs : List α)
    (h : x.dropWhile p = c :: cs) :
    (x ++ t).dropWhile p = c :: (cs ++ t) ∧ (x ++ t).takeWhile p = x.takeWhile p := by
  constructor
  · rw [List.dropWhile_append, h]
    simp
  · rw [List.takeWhile_append]
    have hlt : (x.takeWhile p).length ≠ x.length := by
      intro he
      have := congrArg List.length (List.takeWhile_append_dropWhile p x)
      rw [List.length_append, he, h] at this
      simp at this
    simp [hlt]

theorem dropWhile_nil_append {α} (p : α → Bool) (x t : List α)
    (h : x.dropWhile p = []) :
    (x ++ t).dropWhile p = t.dropWhile p := by
  rw [List.dropWhile_append, h]
  simp

theorem dropWhile_head_not {α} (p : α → Bool) (x : List α) (c : α) (cs : List α)
    (h : x.dropWhile p = c :: cs) : p c = false := by
  induction x with
  | nil => simp at h
  | cons a x' ih =>
    rw [List.dropWhile_cons] at h
    by_cases hp : p a
    · rw [if_pos hp] at h
      exact ih h
    · rw [if_neg hp] at h
      injection h with h1 h2
      subst h1
      simpa using hp

theorem skipWs_cons_append (x t : List Char) (c : Char) (cs : List Char)
    (h : skipWs x = c :: cs) : skipWs (x ++ t) = c :: (cs ++ t) :=
  (dropWhile_cons_append isJsonWs x t c cs h).1

theorem safeStop_spec (c : Char) (h : safeStop c = true) :
    isDigit c = false ∧ c ≠ '.' ∧ c ≠ 'e' ∧ c ≠ 'E' := by
  have h' : c = ' ' ∨ c = '\t' ∨ c = '\n' ∨ c = '\r' ∨ c = ',' ∨ c = '}' ∨ c = ']' := by
    simp only [safeStop, isJsonWs, Bool.or_eq_true, decide_eq_true_eq] at h
    tauto
  rcases h' with h1 | h1 | h1 | h1 | h1 | h1 | h1 <;> subst h1 <;>
    exact ⟨by decide, by decide, by decide, by decide⟩

/-- A string-body scan that succeeded is insensitive to text appended
after its input: its extent is delimited by the closing quote inside the
input. -/
theorem parseStringBody_mono_aux (t : List Char) :
    ∀ (n : Nat) (s : List Char), s.length ≤ n →
      ∀ cs rest, parseStringBody s = some (cs, rest) →
      parseStringBody (s ++ t) = some (cs, rest ++ t) := by
  intro n
  induction n with
  | zero =>
    intro s hs cs rest h
    have hnil : s = [] := List.length_eq_zero.mp (Nat.le_zero.mp hs)
    subst hnil
    simp [parseStringBody] at h
  | succ n ih =>
    intro s hs cs rest h
    cases s with
    | nil => simp [parseStringBody] at h
    | cons c r =>
      rw [List.cons_append]
      unfold parseStringBody at h ⊢
      by_cases hc : c = '"'
      · subst hc
        simp only [reduceIte] at h ⊢
        injection h with h1
        injection h1 with h2 h3
        subst h2; subst h3
        rfl
      · rw [if_neg hc] at h ⊢
        by_cases hb : c = '\\'
        · subst hb
          simp only [reduceIte] at h ⊢
          cases r with
          | nil => simp at h
          | cons e rest2 =>
            simp only [List.cons_append]
            dsimp only at h ⊢
            by_cases he : e = 'u'
            · subst he
              simp only [reduceIte] at h ⊢
              rcases rest2 with _ | ⟨a, _ | ⟨b, _ | ⟨c2, _ | ⟨d, rest3⟩⟩⟩⟩
              · simp at h
              · simp at h
              · simp at h
              · simp at h
              · simp only [List.cons_append]
                cases ha : hexDigit a with
                | none => simp [ha] at h
                | some va =>
                cases hbd : hexDigit b with
                | none => simp [ha, hbd] at h
                | some vb =>
                cases hcd : hexDigit c2 with
                | none => simp [ha, hbd, hcd] at h
                | some vc =>
                cases hdd : hexDigit d with
                | none => simp [ha, hbd, hcd, hdd] at h
                | some vd =>
                simp only [ha, hbd, hcd, hdd] at h ⊢
                cases hp : parseStringBody rest3 with
                | none => simp [hp] at h
                | some pr =>
                  obtain ⟨cs', r'⟩ := pr
                  have hlen : rest3.length ≤ n := by
                    simp only [List.length_cons] at hs
                    omega
                  rw [ih rest3 hlen cs' r' hp]
                  rw [hp] at h
                  simp only at h ⊢
                  injection h with h1
                  injection h1 with h2 h3
                  subst h2; subst h3
                  rfl
            · rw [if_neg he] at h ⊢
              cases hj : jsonEscape e with
              | none => simp [hj] at h
              | some ch =>
                simp only [hj] at h ⊢
                cases hp : parseStringBody rest2 with
                | none => simp [hp] at h
                | some pr =>
                  obtain ⟨cs', r'⟩ := pr
                  have hlen : rest2.length ≤ n := by
                    simp only [List.length_cons] at hs
                    omega
                  rw [ih rest2 hlen cs' r' hp]
                  rw [hp] at h
                  simp only at h ⊢
                  injection h with h1
                  injection h1 with h2 h3
                  subst h2; subst h3
                  rfl
        · rw [if_neg hb] at h ⊢
          by_cases hctl : c.toNat < 32
          · rw [if_pos hctl] at h
            simp at h
          · rw [if_neg hctl] at h ⊢
            cases hp : parseStringBody r with
            | none => simp [hp] at h
            | some pr =>
              obtain ⟨cs', r'⟩ := pr
              have hlen : r.length ≤ n := by
                simp only [List.length_cons] at hs
                omega
              rw [ih r hlen cs' r' hp]
              rw [hp] at h
              simp only at h ⊢
              injection h with h1
              injection h1 with h2 h3
              subst h2; subst h3
              rfl

theorem parseStringBody_monotone (t s cs rest : List Char)
    (h : parseStringBody s = some (cs, rest)) :
    parseStringBody (s ++ t) = some (cs, rest ++ t) :=
  parseStringBody_mono_aux t s.length s le_rfl cs rest h

theorem parseIntPart_monotone (x t ip : List Char) (c : Char) (cs : List Char)
    (h : parseIntPart x = some (ip, c :: cs)) :
    parseIntPart (x ++ t) = some (ip, c :: (cs ++ t)) := by
  cases x with
  | nil => simp [parseIntPart] at h
  | cons a r =>
    rw [List.cons_append]
    unfold parseIntPart at h ⊢
    dsimp only at h ⊢
    by_cases h0 : a = '0'
    · rw [if_pos h0] at h ⊢
      injection h with h1
      injection h1 with h2 h3
      subst h2
      simp [h3]
    · rw [if_neg h0] at h ⊢
      by_cases h19 : '1' ≤ a ∧ a ≤ '9'
      · rw [if_pos h19] at h ⊢
        injection h with h1
        injection h1 with h2 h3
        obtain ⟨hd, ht⟩ := dropWhile_cons_append isDigit r t c cs h3
        rw [hd, ht, h2]
      · rw [if_neg h19] at h
        simp at h

theorem parseFracPart_monotone (x t fp : List Char) (c : Char) (cs : List Char)
    (h : parseFracPart x = (fp, c :: cs)) (hndot : c ≠ '.') :
    parseFracPart (x ++ t) = (fp, c :: (cs ++ t)) := by
  cases x with
  | nil =>
    unfold parseFracPart at h
    injection h with h1 h2
    simp at h2
  | cons a r =>
    rw [List.cons_append]
    unfold parseFracPart at h ⊢
    dsimp only at h ⊢
    by_cases ha : a = '.'
    · rw [if_pos ha] at h ⊢
      by_cases hds : r.takeWhile isDigit = []
      · rw [if_pos hds] at h
        injection h with h1 h2
        injection h2 with h3 h4
        subst h3
        exact absurd ha hndot
      · rw [if_neg hds] at h
        injection h with h1 h2
        obtain ⟨hd, ht⟩ := dropWhile_cons_append isDigit r t c cs h2
        have hne : ¬ (r ++ t).takeWhile isDigit = [] := by
          rw [ht]
          exact hds
        rw [if_neg hne, ht, hd, h1]
    · rw [if_neg ha] at h ⊢
      injection h with h1 h2
      injection h2 with h3 h4
      subst h3
      rw [h1.symm, h4]

theorem parseExpPart_monotone (x t ep : List Char) (c : Char) (cs : List Char)
    (h : parseExpPart x = (ep, c :: cs)) (hsafe : safeStop c = true) :
    parseExpPart (x ++ t) = (ep, c :: (cs ++ t)) := by
  obtain ⟨hdig, hdot, hce, hcE⟩ := safeStop_spec c hsafe
  cases x with
  | nil =>
    unfold parseExpPart at h
    injection h with h1 h2
    simp at h2
  | cons e r =>
    rw [List.cons_append]
    unfold parseExpPart at h ⊢
    dsimp only at h ⊢
    by_cases hee : e = 'e' ∨ e = 'E'
    · rw [if_pos hee] at h ⊢
      cases r with
      | nil =>
        injection h with h1 h2
        injection h2 with h3 h4
        subst h3
        rcases hee with h5 | h5
        · exact absurd h5 hce
        · exact absurd h5 hcE
      | cons sgn r2 =>
        rw [List.cons_append]
        dsimp only at h ⊢
        by_cases hsg : sgn = '+' ∨ sgn = '-'
        · rw [if_pos hsg] at h ⊢
          by_cases hds : r2.takeWhile isDigit = []
          · rw [if_pos hds] at h
            injection h with h1 h2
            injection h2 with h3 h4
            subst h3
            rcases hee with h5 | h5
            · exact absurd h5 hce
            · exact absurd h5 hcE
          · rw [if_neg hds] at h
            injection h with h1 h2
            obtain ⟨hd, ht⟩ := dropWhile_cons_append isDigit r2 t c cs h2
            have hne : ¬ (r2 ++ t).takeWhile isDigit = [] := by
              rw [ht]
              exact hds
            rw [if_neg hne, ht, hd, h1]
        · rw [if_neg hsg] at h ⊢
          by_cases hds : (sgn :: r2).takeWhile isDigit = []
          · rw [if_pos hds] at h
            injection h with h1 h2
            injection h2 with h3 h4
            subst h3
            rcases hee with h5 | h5
            · exact absurd h5 hce
            · exact absurd h5 hcE
          · rw [if_neg hds] at h
            injection h with h1 h2
            obtain ⟨hd, ht⟩ := dropWhile_cons_append isDigit (sgn :: r2) t c cs h2
            rw [List.cons_append] at hd ht
            have hne : ¬ (sgn :: (r2 ++ t)).takeWhile isDigit = [] := by
              rw [ht]
              exact hds
            rw [if_neg hne, ht, hd, h1]
    · rw [if_neg hee] at h ⊢
      injection h with h1 h2
      injection h2 with h3 h4
      subst h3
      rw [h1.symm, h4]

theorem parseNumber_unsigned_monotone (y t ip r1 fp r2 ep : List Char) (c : Char)
    (cs : List Char)
    (hint : parseIntPart y = some (ip, r1))
    (hfr : parseFracPart r1 = (fp, r2))
    (hexp : parseExpPart r2 = (ep, c :: cs))
    (hsafe : safeStop c = true) :
    parseIntPart (y ++ t) = some (ip, r1 ++ t) ∧
    parseFracPart (r1 ++ t) = (fp, r2 ++ t) ∧
    parseExpPart (r2 ++ t) = (ep, c :: (cs ++ t)) := by
  obtain ⟨hdig, hdot, hce, hcE⟩ := safeStop_spec c hsafe
  rcases hr2c : r2 with _ | ⟨c₂, cs₂⟩
  · subst hr2c
    simp [parseExpPart] at hexp
  · subst hr2c
    have hndot2 : c₂ ≠ '.' := by
      by_cases hee : c₂ = 'e' ∨ c₂ = 'E'
      · rcases hee with h5 | h5 <;> subst h5 <;> decide
      · have hid : parseExpPart (c₂ :: cs₂) = ([], c₂ :: cs₂) := by
          unfold parseExpPart
          dsimp only
          rw [if_neg hee]
        rw [hid] at hexp
        injection hexp with h1 h2
        injection h2 with h3 h4
        subst h3
        exact hdot
    rcases hr1c : r1 with _ | ⟨c₁, cs₁⟩
    · subst hr1c
      simp [parseFracPart] at hfr
    · subst hr1c
      refine ⟨?_, ?_, ?_⟩
      · rw [List.cons_append]
        exact parseIntPart_monotone y t ip c₁ cs₁ hint
      · rw [List.cons_append, List.cons_append]
        exact parseFracPart_monotone (c₁ :: cs₁) t fp c₂ cs₂ hfr hndot2
      · rw [List.cons_append]
        exact parseExpPart_monotone (c₂ :: cs₂) t ep c cs hexp hsafe

theorem parseNumber_monotone (x t tok : List Char) (c : Char) (cs : List Char)
    (h : parseNumber x = some (tok, c :: cs)) (hsafe : safeStop c = true) :
    parseNumber (x ++ t) = some (tok, c :: (cs ++ t)) := by
  cases x with
  | nil => simp [parseNumber] at h
  | cons a r =>
    rw [List.cons_append]
    unfold parseNumber at h ⊢
    dsimp only at h ⊢
    by_cases hm : a = '-'
    · rw [if_pos hm] at h ⊢
      cases hint : parseIntPart r with
      | none => rw [hint] at h; simp at h
      | some pr =>
        obtain ⟨ip, r1⟩ := pr
        rw [hint] at h
        dsimp only at h
        rcases hfr : parseFracPart r1 with ⟨fp, r2⟩
        rw [hfr] at h
        dsimp only at h
        rcases hexp : parseExpPart r2 with ⟨ep, rem⟩
        rw [hexp] at h
        dsimp only at h
        injection h with h1
        injection h1 with h2 h3
        subst h3
        obtain ⟨m1, m2, m3⟩ :=
          parseNumber_unsigned_monotone r t ip r1 fp r2 ep c cs hint hfr hexp hsafe
        rw [m1]
        dsimp only
        rw [m2]
        dsimp only
        rw [m3]
        rw [h2]
    · rw [if_neg hm] at h ⊢
      cases hint : parseIntPart (a :: r) with
      | none => rw [hint] at h; simp at h
      | some pr =>
        obtain ⟨ip, r1⟩ := pr
        rw [hint] at h
        dsimp only at h
        rcases hfr : parseFracPart r1 with ⟨fp, r2⟩
        rw [hfr] at h
        dsimp only at h
        rcases hexp : parseExpPart r2 with ⟨ep, rem⟩
        rw [hexp] at h
        dsimp only at h
        injection h with h1
        injection h1 with h2 h3
        subst h3
        obtain ⟨m1, m2, m3⟩ :=
          parseNumber_unsigned_monotone (a :: r) t ip r1 fp r2 ep c cs hint hfr hexp hsafe
        rw [List.cons_append] at m1
        rw [m1]
        dsimp only
        rw [m2]
        dsimp only
        rw [m3]
        rw [h2]

theorem parseJ_value_nil (f : Nat) : parseJ f PMode.value [] = none := by
  cases f <;> rfl

theorem parseJ_members_nil (f : Nat) : parseJ f PMode.members [] = none := by
  cases f <;> rfl

theorem parseJ_elems_nil (f : Nat) : parseJ f PMode.elems [] = none := by
  cases f with
  | zero => rfl
  | succ f =>
    unfold parseJ
    rw [parseJ_value_nil]

theorem parseJ_nil (f : Nat) (mode : PMode) : parseJ f mode [] = none := by
  cases mode
  · exact parseJ_value_nil f
  · exact parseJ_members_nil f
  · exact parseJ_elems_nil f

theorem isPrefixOf_append (p s t : List Char) (h : p.isPrefixOf s = true) :
    p.isPrefixOf (s ++ t) = true := by
  rw [List.isPrefixOf_iff_prefix] at h ⊢
  exact h.trans (List.prefix_append s t)

theorem isPrefixOf_length_le (p s : List Char) (h : p.isPrefixOf s = true) :
    p.length ≤ s.length :=
  (List.isPrefixOf_iff_prefix.mp h).length_le

theorem drop_append_of_le (n : Nat) (s t : List Char) (h : n ≤ s.length) :
    (s ++ t).drop n = s.drop n ++ t := by
  rw [List.drop_append_eq_append_drop]
  have hz : n - s.length = 0 := by omega
  rw [hz, List.drop_zero]

/-! ### Compaction -/

theorem estimateCharCount_append (a b : List Msg) :
    estimateCharCount (a ++ b) = estimateCharCount a + estimateCharCount b := by
  simp [estimateCharCount]

theorem summarizeText_length_le (text : List Char) (maxItems : Nat) :
    (summarizeText text 1000 maxItems).length ≤ 1003 := by
  simp only [summarizeText]
  split
  · have h1 := List.length_take_le 1000
      (List.intercalate ("\n".toList) (summarizeLoop 1000 maxItems (splitSentences text) [] 0))
    omega
  · split
    · simp
    · rw [List.length_append]
      have h1 := List.length_take_le 1000
        (List.intercalate ("\n".toList)
          ((((pySplitlines text).map pyStrip).filter fun l => l ≠ []).take maxItems))
      split
      · have h3 : ("...".toList).length = 3 := by decide
        omega
      · simp only [List.length_nil]
        omega

/-- C3 counterexample: a buffer over the compaction threshold on which
`_maybe_compact_messages` leaves the dynamic tail's character count
strictly larger, because the synthetic summary message outweighs the tiny
compacted prefix. -/
theorem maybe_compact_counterexample :
    compactThreshold smallBudgetState.config < estimateCharCount smallBudgetState.messages ∧
    ¬ estimateCharCount ((maybeCompactMessages smallBudgetState).messages.drop
          smallBudgetState.static_system_messages.length) <
        estimateCharCount (smallBudgetState.messages.drop
          smallBudgetState.static_system_messages.length) := by
  constructor
  · decide
  · decide

/-- C3 (amended): on a buffer over the threshold that also has more than
`static + 6` messages, a nonempty summary, and a compacted prefix larger
than the largest possible summary message (1037 characters), compaction
keeps the static messages as the buffer's prefix and untouched as a field,
replaces the old dynamic prefix with exactly one synthetic system summary
message, strictly shrinks the dynamic tail's character count, and
preserves the most recent six messages verbatim. -/
theorem maybe_compact_spec (st : SessionState)
    (hover : compactThreshold st.config < estimateCharCount st.messages)
    (hcount : st.static_system_messages.length + 6 < st.messages.length)
    (hsum : compactSummary st ≠ [])
    (hbig : 1037 < estimateCharCount (compactOldMessages st)) :
    (maybeCompactMessages st).messages =
      st.static_system_messages ++
        (⟨Role.system, summaryMsgContent (compactSummary st), none⟩ :: compactRecent st) ∧
    (maybeCompactMessages st).static_system_messages = st.static_system_messages ∧
    (maybeCompactMessages st).messages.take st.static_system_messages.length =
      st.static_system_messages ∧
    estimateCharCount ((maybeCompactMessages st).messages.drop
        st.static_system_messages.length) <
      estimateCharCount (dynamicTail st) ∧
    (maybeCompactMessages st).messages.drop
        ((maybeCompactMessages st).messages.length - 6) =
      st.messages.drop (st.messages.length - 6) := by
  have h1 : ¬ estimateCharCount st.messages ≤ compactThreshold st.config :=
    Nat.not_le.mpr hover
  have h2 : ¬ st.messages.length ≤ st.static_system_messages.length + 6 :=
    Nat.not_le.mpr hcount
  have hmc : maybeCompactMessages st =
      { st with
        running_summary := compactSummary st,
        messages := st.static_system_messages ++
          (⟨Role.system, summaryMsgContent (compactSummary st), none⟩ :: compactRecent st) } := by
    simp [maybeCompactMessages, h1, h2, hsum]
  have hdyn : 6 ≤ (dynamicTail st).length := by
    have : (dynamicTail st).length = st.messages.length - st.static_system_messages.length := by
      simp [dynamicTail]
    omega
  have hrecent : (compactRecent st).length = 6 := by
    simp only [compactRecent, List.length_drop]
    omega
  refine ⟨by rw [hmc], by rw [hmc], ?_, ?_, ?_⟩
  · rw [hmc]
    exact List.take_left _ _
  · rw [hmc]
    have hdrop : (st.static_system_messages ++
        (⟨Role.system, summaryMsgContent (compactSummary st), none⟩ :: compactRecent st)).drop
          st.static_system_messages.length =
        ⟨Role.system, summaryMsgContent (compactSummary st), none⟩ :: compactRecent st :=
      List.drop_left _ _
    rw [hdrop]
    have hsplit : dynamicTail st = compactOldMessages st ++ compactRecent st :=
      (List.take_append_drop _ _).symm
    have hlen : (summaryMsgContent (compactSummary st)).length ≤ 1037 := by
      have := summarizeText_length_le
        (List.intercalate ("\n".toList) ((compactOldMessages st).map Msg.content)) 6
      simp only [summaryMsgContent, List.length_append]
      have h34 : ("Conversation so far (summarized):\n".toList).length = 34 := by decide
      simp only [h34]
      simp only [compactSummary] at *
      omega
    rw [hsplit, estimateCharCount_append]
    have : estimateCharCount
        (⟨Role.system, summaryMsgContent (compactSummary st), none⟩ :: compactRecent st) =
        (summaryMsgContent (compactSummary st)).length + estimateCharCount (compactRecent st) := by
      simp [estimateCharCount]
    rw [this]
    omega
  · rw [hmc]
    have hlen2 : (st.static_system_messages ++
        (⟨Role.system, summaryMsgContent (compactSummary st), none⟩ :: compactRecent st)).length =
        st.static_system_messages.length + 1 + 6 := by
      rw [List.length_append, List.length_cons, hrecent]
    rw [hlen2]
    have hd1 : st.static_system_messages.length + 1 + 6 - 6 =
        st.static_system_messages.length + 1 := by omega
    rw [hd1]
    have hd2 : (st.static_system_messages ++
        (⟨Role.system, summaryMsgContent (compactSummary st), none⟩ :: compactRecent st)).drop
          (st.static_system_messages.length + 1) = compactRecent st := by
      rw [show st.static_system_messages.length + 1 =
        (st.static_system_messages ++
          [(⟨Role.system, summaryMsgContent (compactSummary st), none⟩ : Msg)]).length by simp]
      rw [show st.static_system_messages ++
          (⟨Role.system, summaryMsgContent (compactSummary st), none⟩ :: compactRecent st) =
        (st.static_system_messages ++
          [⟨Role.system, summaryMsgContent (compactSummary st), none⟩]) ++ compactRecent st by simp]
      exact List.drop_left _ _
    rw [hd2]
    have hd3 : st.messages.drop (st.messages.length - 6) =
        (dynamicTail st).drop ((dynamicTail st).length - 6) := by
      simp only [dynamicTail, List.drop_drop, List.length_drop]
      congr 1
      omega
    rw [hd3]
    rfl

set_option maxRecDepth 100000 in
/-- Witness for `maybe_compact_spec` on `largePrefixState`. -/
theorem maybe_compact_spec_witness :
    (compactThreshold largePrefixState.config <
      estimateCharCount largePrefixState.messages) ∧
    (largePrefixState.static_system_messages.length + 6 <
      largePrefixState.messages.length) ∧
    compactSummary largePrefixState ≠ [] ∧
    1037 < estimateCharCount (compactOldMessages largePrefixState) ∧
    ((maybeCompactMessages largePrefixState).messages =
      largePrefixState.static_system_messages ++
        (⟨Role.system, summaryMsgContent (compactSummary largePrefixState), none⟩ ::
          compactRecent largePrefixState) ∧
     (maybeCompactMessages largePrefixState).static_system_messages =
       largePrefixState.static_system_messages ∧
     (maybeCompactMessages largePrefixState).messages.take
         largePrefixState.static_system_messages.length =
       largePrefixState.static_system_messages ∧
     estimateCharCount ((maybeCompactMessages largePrefixState).messages.drop
         largePrefixState.static_system_messages.length) <
       estimateCharCount (dynamicTail largePrefixState) ∧
     (maybeCompactMessages largePrefixState).messages.drop
         ((maybeCompactMessages largePrefixState).messages.length - 6) =
       largePrefixState.messages.drop (largePrefixState.messages.length - 6)) :=
  ⟨by decide, by decide, by decide, by decide,
   maybe_compact_spec largePrefixState (by decide) (by decide) (by decide) (by decide)⟩

/-! ### Backend-call failure semantics -/

/-- C6 counterexample: on a buffer over the compaction threshold the
message buffer after a failed backend call differs from the buffer before
it, because `_call_ollama` compacts before the request is attempted. -/
theorem call_ollama_failure_counterexample :
    (callOllama (fun _ => none) smallBudgetState ("x".toList) none).2.messages ≠
      smallBudgetState.messages := by
  decide

/-- C6 (amended): a failed backend call appends neither the user message
nor an assistant message — the resulting buffer is exactly the compacted
buffer, which under the compaction threshold is the unchanged original —
and messages are appended only after a successful reply. -/
theorem call_ollama_spec (backend : List Msg → Option (List Char)) (st : SessionState)
    (input : List Char) (images : Option (List (List Char))) :
    (backend (messagesForCall st input images) = none →
      callOllama backend st input images = (none, maybeCompactMessages st)) ∧
    (estimateCharCount st.messages ≤ compactThreshold st.config →
      maybeCompactMessages st = st) ∧
    (∀ reply, backend (messagesForCall st input images) = some reply →
      callOllama backend st input images =
        (some reply,
         { maybeCompactMessages st with
           messages := (maybeCompactMessages st).messages ++
             [mkUserMsg input images, ⟨Role.assistant, reply, none⟩] })) := by
  refine ⟨fun h => ?_, fun h => ?_, fun reply h => ?_⟩
  · simp only [callOllama]
    rw [show (maybeCompactMessages st).messages ++ [mkUserMsg input images] =
      messagesForCall st input images from rfl, h]
  · simp [maybeCompactMessages, h]
  · simp only [callOllama]
    rw [show (maybeCompactMessages st).messages ++ [mkUserMsg input images] =
      messagesForCall st input images from rfl, h]

/-- Witness for `call_ollama_spec`: an always-failing backend on a small
buffer leaves the state untouched. -/
theorem call_ollama_spec_witness :
    ((fun _ : List Msg => (none : Option (List Char)))
        (messagesForCall oneMessageState ("x".toList) none) = none) ∧
    (estimateCharCount oneMessageState.messages ≤ compactThreshold oneMessageState.config) ∧
    callOllama (fun _ => none) oneMessageState ("x".toList) none =
      (none, maybeCompactMessages oneMessageState) ∧
    maybeCompactMessages oneMessageState = oneMessageState :=
  ⟨rfl, by decide,
   (call_ollama_spec (fun _ => none) oneMessageState ("x".toList) none).1 rfl,
   (call_ollama_spec (fun _ => none) oneMessageState ("x".toList) none).2.1 (by decide)⟩

/-! ### The follow-up call after tool execution -/

/-- C2 counterexample: the follow-up backend call after tool execution
receives the prior message buffer as well as the minimal prompt.  On a
one-message buffer, a probe backend that reports how many messages it was
sent observes two messages on the follow-up call, not one, and the sent
list is the prior buffer extended by the follow-up prompt. -/
theorem follow_up_counterexample :
    (runTurnToolFollowup (fun _ => none) backendProbe oneMessageState
        ("TOOL_CALL: x\nARGS: \x7b\"a\": 1\x7d".toList)).1 = some ("2".toList) ∧
    messagesForCall oneMessageState (followupPrompt ("results".toList)) none =
      [⟨Role.user, "earlier".toList, none⟩,
       ⟨Role.user, followupPrompt ("results".toList), none⟩] := by
  constructor
  · decide
  · decide

/-- C2 (amended): with tool calls present, the turn's second backend call
is made through `_call_ollama` with the minimal follow-up prompt built
from the formatted tool results — but that prompt is appended to the
(possibly compacted) existing message buffer, which is sent along with
it rather than dropped. -/
theorem follow_up_call_spec (registry : List Char → Option ToolFn)
    (backend : List Msg → Option (List Char)) (st : SessionState) (response : List Char)
    (h : (parseToolCalls response).isEmpty = false) :
    (runTurnToolFollowup registry backend st response =
      callOllama backend st
        (followupPrompt (formatToolResults
          (executeTools registry (parseToolCalls response)))) none) ∧
    (∀ input images,
      messagesForCall st input images =
        (maybeCompactMessages st).messages ++ [⟨Role.user, input, images⟩]) ∧
    (∀ (backend2 : List Msg → Option (List Char)) (st2 : SessionState) input images,
      callOllama backend2 st2 input images =
        match backend2 (messagesForCall st2 input images) with
        | none => (none, maybeCompactMessages st2)
        | some reply =>
          (some reply,
           { maybeCompactMessages st2 with
             messages := (maybeCompactMessages st2).messages ++
               [mkUserMsg input images, ⟨Role.assistant, reply, none⟩] })) := by
  refine ⟨?_, fun input images => rfl, fun backend2 st2 input images => ?_⟩
  · simp [runTurnToolFollowup, h]
  · simp only [callOllama]
    rcases hb : backend2 (messagesForCall st2 input images) with _ | reply <;>
      rw [show (maybeCompactMessages st2).messages ++ [mkUserMsg input images] =
        messagesForCall st2 input images from rfl, hb]

/-- Witness for `follow_up_call_spec` on a concrete legacy tool call. -/
theorem follow_up_call_spec_witness :
    (parseToolCalls ("TOOL_CALL: x\nARGS: \x7b\"a\": 1\x7d".toList)).isEmpty = false ∧
    runTurnToolFollowup (fun _ => none) backendProbe oneMessageState
        ("TOOL_CALL: x\nARGS: \x7b\"a\": 1\x7d".toList) =
      callOllama backendProbe oneMessageState
        (followupPrompt (formatToolResults
          (executeTools (fun _ => none)
            (parseToolCalls ("TOOL_CALL: x\nARGS: \x7b\"a\": 1\x7d".toList))))) none :=
  ⟨by decide,
   (follow_up_call_spec (fun _ => none) backendProbe oneMessageState
      ("TOOL_CALL: x\nARGS: \x7b\"a\": 1\x7d".toList) (by decide)).1⟩


/-! ### Truncation of nested argument objects (`_parse_tool_calls`)

The capture group of the legacy pattern is `\x7b[^\x7d]+\x7d`: it cannot
span a closing brace, so any argument object with a nested object (or any
early `\x7d`) is cut short at its first closing brace.  The lemmas below
extend the scanner-monotonicity toolkit to full `parseJ` values and
evaluate the regex scan symbolically on a reply holding one such pair. -/

theorem parseNumber_neg_Infinity (r : List Char) : parseNumber ('-' :: 'I' :: r) = none := by
  have hip : parseIntPart ('I' :: r) = none := by
    unfold parseIntPart
    dsimp only
    rw [if_neg (by decide), if_neg (by decide)]
  unfold parseNumber
  dsimp only
  rw [if_pos rfl, hip]

theorem literal_step (lit : List Char) (a : Char) (r t : List Char)
    (hpre : lit.isPrefixOf (a :: r) = true) :
    lit.isPrefixOf (a :: (r ++ t)) = true ∧
      (a :: (r ++ t)).drop lit.length = (a :: r).drop lit.length ++ t := by
  constructor
  · have h1 := isPrefixOf_append lit (a :: r) t hpre
    rwa [List.cons_append] at h1
  · have h1 := drop_append_of_le lit.length (a :: r) t (isPrefixOf_length_le _ _ hpre)
    rwa [List.cons_append] at h1

theorem skipWs_safe_head (r3 : List Char) (e : Char) (r4 : List Char)
    (hsw : skipWs r3 = e :: r4) (hsafeE : safeStop e = true) :
    ∃ c0 cs0, r3 = c0 :: cs0 ∧ safeStop c0 = true := by
  cases r3 with
  | nil => simp [skipWs] at hsw
  | cons e0 es =>
    by_cases hws : isJsonWs e0
    · exact ⟨e0, es, rfl, by simp [safeStop, hws]⟩
    · have hid : skipWs (e0 :: es) = e0 :: es := by
        unfold skipWs
        rw [List.dropWhile_cons, if_neg (by simpa using hws)]
      rw [hid] at hsw
      injection hsw with h5 h6
      subst h5
      exact ⟨e0, es, rfl, hsafeE⟩

theorem parseJ_monotone :
    ∀ (f : Nat) (mode : PMode) (s t : List Char) (v : J) (rest : List Char),
      parseJ f mode s = some (v, rest) →
      (mode = PMode.value →
        parseNumber s = none ∨ ∃ c cs, rest = c :: cs ∧ safeStop c = true) →
      parseJ f mode (s ++ t) = some (v, rest ++ t) := by
  intro f
  induction f with
  | zero =>
    intro mode s t v rest h _
    simp [parseJ] at h
  | succ f ih =>
    intro mode s t v rest h hnum
    cases mode with
    | value =>
      cases s with
      | nil =>
        rw [parseJ_value_nil] at h
        exact absurd h (by simp)
      | cons a r =>
        rw [List.cons_append]
        unfold parseJ at h ⊢
        dsimp only at h ⊢
        by_cases hbrace : a = '{'
        · rw [if_pos hbrace] at h ⊢
          cases hsw : skipWs r with
          | nil => rw [hsw] at h; simp at h
          | cons d r2 =>
            rw [hsw] at h
            rw [skipWs_cons_append r t d r2 hsw]
            dsimp only at h ⊢
            by_cases hd : d = '}'
            · rw [if_pos hd] at h ⊢
              injection h with h1
              injection h1 with h2 h3
              subst h2; subst h3
              rfl
            · rw [if_neg hd] at h ⊢
              have hres := ih PMode.members (d :: r2) t v rest h
                (by intro hmode; exact absurd hmode (by decide))
              rw [List.cons_append] at hres
              exact hres
        · rw [if_neg hbrace] at h ⊢
          by_cases hbrk : a = '['
          · rw [if_pos hbrk] at h ⊢
            cases hsw : skipWs r with
            | nil => rw [hsw] at h; simp at h
            | cons d r2 =>
              rw [hsw] at h
              rw [skipWs_cons_append r t d r2 hsw]
              dsimp only at h ⊢
              by_cases hd : d = ']'
              · rw [if_pos hd] at h ⊢
                injection h with h1
                injection h1 with h2 h3
                subst h2; subst h3
                rfl
              · rw [if_neg hd] at h ⊢
                have hres := ih PMode.elems (d :: r2) t v rest h
                  (by intro hmode; exact absurd hmode (by decide))
                rw [List.cons_append] at hres
                exact hres
          · rw [if_neg hbrk] at h ⊢
            by_cases hq : a = '"'
            · rw [if_pos hq] at h ⊢
              cases hp : parseStringBody r with
              | none => rw [hp] at h; simp at h
              | some pr =>
                obtain ⟨cs0, rest0⟩ := pr
                rw [hp] at h
                rw [parseStringBody_monotone t r cs0 rest0 hp]
                dsimp only at h ⊢
                injection h with h1
                injection h1 with h2 h3
                subst h2; subst h3
                rfl
            · rw [if_neg hq] at h ⊢
              by_cases hlt : a = 't'
              · rw [if_pos hlt] at h ⊢
                by_cases hpre : ("true".toList).isPrefixOf (a :: r) = true
                · obtain ⟨hp2, hd2⟩ := literal_step ("true".toList) a r t hpre
                  rw [if_pos hpre] at h
                  rw [if_pos hp2]
                  injection h with h1
                  injection h1 with h2 h3
                  subst h2; subst h3
                  rw [show (("true".toList).length : Nat) = 4 by decide] at hd2
                  rw [hd2]
                · rw [if_neg (by simpa using hpre)] at h
                  simp at h
              · rw [if_neg hlt] at h ⊢
                by_cases hlf : a = 'f'
                · rw [if_pos hlf] at h ⊢
                  by_cases hpre : ("false".toList).isPrefixOf (a :: r) = true
                  · obtain ⟨hp2, hd2⟩ := literal_step ("false".toList) a r t hpre
                    rw [if_pos hpre] at h
                    rw [if_pos hp2]
                    injection h with h1
                    injection h1 with h2 h3
                    subst h2; subst h3
                    rw [show (("false".toList).length : Nat) = 5 by decide] at hd2
                    rw [hd2]
                  · rw [if_neg (by simpa using hpre)] at h
                    simp at h
                · rw [if_neg hlf] at h ⊢
                  by_cases hln : a = 'n'
                  · rw [if_pos hln] at h ⊢
                    by_cases hpre : ("null".toList).isPrefixOf (a :: r) = true
                    · obtain ⟨hp2, hd2⟩ := literal_step ("null".toList) a r t hpre
                      rw [if_pos hpre] at h
                      rw [if_pos hp2]
                      injection h with h1
                      injection h1 with h2 h3
                      subst h2; subst h3
                      rw [show (("null".toList).length : Nat) = 4 by decide] at hd2
                      rw [hd2]
                    · rw [if_neg (by simpa using hpre)] at h
                      simp at h
                  · rw [if_neg hln] at h ⊢
                    by_cases hlN : a = 'N'
                    · rw [if_pos hlN] at h ⊢
                      by_cases hpre : ("NaN".toList).isPrefixOf (a :: r) = true
                      · obtain ⟨hp2, hd2⟩ := literal_step ("NaN".toList) a r t hpre
                        rw [if_pos hpre] at h
                        rw [if_pos hp2]
                        injection h with h1
                        injection h1 with h2 h3
                        subst h2; subst h3
                        rw [show (("NaN".toList).length : Nat) = 3 by decide] at hd2
                        rw [hd2]
                      · rw [if_neg (by simpa using hpre)] at h
                        simp at h
                    · rw [if_neg hlN] at h ⊢
                      by_cases hlI : a = 'I'
                      · rw [if_pos hlI] at h ⊢
                        by_cases hpre : ("Infinity".toList).isPrefixOf (a :: r) = true
                        · obtain ⟨hp2, hd2⟩ := literal_step ("Infinity".toList) a r t hpre
                          rw [if_pos hpre] at h
                          rw [if_pos hp2]
                          injection h with h1
                          injection h1 with h2 h3
                          subst h2; subst h3
                          rw [show (("Infinity".toList).length : Nat) = 8 by decide] at hd2
                          rw [hd2]
                        · rw [if_neg (by simpa using hpre)] at h
                          simp at h
                      · rw [if_neg hlI] at h ⊢
                        cases hp : parseNumber (a :: r) with
                        | some pr =>
                          obtain ⟨tok, rest0⟩ := pr
                          rw [hp] at h
                          dsimp only at h
                          injection h with h1
                          injection h1 with h2 h3
                          rcases hnum rfl with hnone | ⟨c, cs, hrest, hsafe⟩
                          · rw [hp] at hnone
                            exact absurd hnone (by simp)
                          · subst h2
                            have hr0 : rest0 = c :: cs := by rw [h3, hrest]
                            subst hr0
                            have hmono := parseNumber_monotone (a :: r) t tok c cs hp hsafe
                            rw [List.cons_append] at hmono
                            rw [hmono]
                            dsimp only
                            rw [hrest, List.cons_append]
                        | none =>
                          rw [hp] at h
                          dsimp only at h
                          by_cases hpre : ("-Infinity".toList).isPrefixOf (a :: r) = true
                          · rw [if_pos hpre] at h
                            injection h with h1
                            injection h1 with h2 h3
                            obtain ⟨hp2, hd2⟩ := literal_step ("-Infinity".toList) a r t hpre
                            rw [show (("-Infinity".toList).length : Nat) = 9 from by decide] at hd2
                            have hnone2 : parseNumber (a :: (r ++ t)) = none := by
                              obtain ⟨u, hu⟩ := List.isPrefixOf_iff_prefix.mp hpre
                              have hu2 : '-' :: 'I' :: 'n' :: 'f' :: 'i' :: 'n' :: 'i' :: 't' :: 'y' :: u
                                  = a :: r := hu
                              injection hu2 with ha hr
                              subst ha
                              rw [← hr, List.cons_append]
                              exact parseNumber_neg_Infinity _
                            rw [hnone2]
                            dsimp only
                            rw [if_pos hp2]
                            subst h2
                            rw [← h3, hd2]
                          · rw [if_neg hpre] at h
                            simp at h
    | members =>
      cases s with
      | nil =>
        rw [parseJ_members_nil] at h
        exact absurd h (by simp)
      | cons a r =>
        rw [List.cons_append]
        unfold parseJ at h ⊢
        dsimp only at h ⊢
        by_cases hq : a = '"'
        · rw [if_pos hq] at h ⊢
          cases hp : parseStringBody r with
          | none => rw [hp] at h; simp at h
          | some pr =>
            obtain ⟨key, r1⟩ := pr
            rw [hp] at h
            rw [parseStringBody_monotone t r key r1 hp]
            dsimp only at h ⊢
            cases hsw1 : skipWs r1 with
            | nil => rw [hsw1] at h; simp at h
            | cons b r2 =>
              rw [hsw1] at h
              rw [skipWs_cons_append r1 t b r2 hsw1]
              dsimp only at h ⊢
              by_cases hb : b = ':'
              · rw [if_pos hb] at h ⊢
                cases hv : parseJ f PMode.value (skipWs r2) with
                | none => rw [hv] at h; simp at h
                | some pv =>
                  obtain ⟨v0, r3⟩ := pv
                  rw [hv] at h
                  dsimp only at h
                  cases hsw3 : skipWs r3 with
                  | nil => rw [hsw3] at h; simp at h
                  | cons e r4 =>
                    rw [hsw3] at h
                    dsimp only at h
                    have he2 : e = ',' ∨ e = '}' := by
                      by_cases h1 : e = ','
                      · exact Or.inl h1
                      · by_cases h2 : e = '}'
                        · exact Or.inr h2
                        · rw [if_neg h1, if_neg h2] at h
                          simp at h
                    have hsafeE : safeStop e = true := by
                      rcases he2 with h5 | h5 <;> subst h5 <;> decide
                    obtain ⟨c0, cs0, hr3eq, hsafe0⟩ := skipWs_safe_head r3 e r4 hsw3 hsafeE
                    cases hsw2 : skipWs r2 with
                    | nil =>
                      rw [hsw2, parseJ_value_nil] at hv
                      exact absurd hv (by simp)
                    | cons w ws =>
                      have hv2 := ih PMode.value (skipWs r2) t v0 r3 hv
                        (fun _ => Or.inr ⟨c0, cs0, hr3eq, hsafe0⟩)
                      rw [hsw2, List.cons_append] at hv2
                      rw [skipWs_cons_append r2 t w ws hsw2, hv2]
                      dsimp only
                      rw [skipWs_cons_append r3 t e r4 hsw3]
                      dsimp only
                      rcases he2 with hcomma | hcbrace
                      · subst hcomma
                        rw [if_pos rfl] at h ⊢
                        cases hm : parseJ f PMode.members (skipWs r4) with
                        | none =>
                          rw [hm] at h
                          simp at h
                        | some pm =>
                          obtain ⟨jv, r5⟩ := pm
                          rw [hm] at h
                          cases jv with
                          | obj kvs =>
                            dsimp only at h
                            injection h with h1
                            injection h1 with h2 h3
                            cases hsw4 : skipWs r4 with
                            | nil =>
                              rw [hsw4, parseJ_members_nil] at hm
                              exact absurd hm (by simp)
                            | cons w4 ws4 =>
                              have hm2 := ih PMode.members (skipWs r4) t (J.obj kvs) r5 hm
                                (by intro hmode; exact absurd hmode (by decide))
                              rw [hsw4, List.cons_append] at hm2
                              rw [skipWs_cons_append r4 t w4 ws4 hsw4, hm2]
                              dsimp only
                              rw [h2, h3]
                          | null => dsimp only at h; exact absurd h (by simp)
                          | bool b0 => dsimp only at h; exact absurd h (by simp)
                          | num n0 => dsimp only at h; exact absurd h (by simp)
                          | str s0 => dsimp only at h; exact absurd h (by simp)
                          | arr a0 => dsimp only at h; exact absurd h (by simp)
                      · subst hcbrace
                        rw [if_neg (by decide), if_pos rfl] at h ⊢
                        injection h with h1
                        injection h1 with h2 h3
                        rw [h2, h3]
              · rw [if_neg hb] at h
                simp at h
        · rw [if_neg hq] at h
          simp at h
    | elems =>
      unfold parseJ at h ⊢
      cases hv : parseJ f PMode.value s with
      | none => rw [hv] at h; simp at h
      | some pv =>
        obtain ⟨v0, r⟩ := pv
        rw [hv] at h
        dsimp only at h
        cases hswr : skipWs r with
        | nil => rw [hswr] at h; simp at h
        | cons e r2 =>
          rw [hswr] at h
          dsimp only at h
          have he2 : e = ',' ∨ e = ']' := by
            by_cases h1 : e = ','
            · exact Or.inl h1
            · by_cases h2 : e = ']'
              · exact Or.inr h2
              · rw [if_neg h1, if_neg h2] at h
                simp at h
          have hsafeE : safeStop e = true := by
            rcases he2 with h5 | h5 <;> subst h5 <;> decide
          obtain ⟨c0, cs0, hreq, hsafe0⟩ := skipWs_safe_head r e r2 hswr hsafeE
          have hv2 := ih PMode.value s t v0 r hv
            (fun _ => Or.inr ⟨c0, cs0, hreq, hsafe0⟩)
          rw [hv2]
          dsimp only
          rw [skipWs_cons_append r t e r2 hswr]
          dsimp only
          rcases he2 with hcomma | hcbrk
          · subst hcomma
            rw [if_pos rfl] at h ⊢
            cases hm : parseJ f PMode.elems (skipWs r2) with
            | none =>
              rw [hm] at h
              simp at h
            | some pm =>
              obtain ⟨jv, r3⟩ := pm
              rw [hm] at h
              cases jv with
              | arr vs =>
                dsimp only at h
                injection h with h1
                injection h1 with h2 h3
                cases hsw2 : skipWs r2 with
                | nil =>
                  rw [hsw2, parseJ_elems_nil] at hm
                  exact absurd hm (by simp)
                | cons w ws =>
                  have hm2 := ih PMode.elems (skipWs r2) t (J.arr vs) r3 hm
                    (by intro hmode; exact absurd hmode (by decide))
                  rw [hsw2, List.cons_append] at hm2
                  rw [skipWs_cons_append r2 t w ws hsw2, hm2]
                  dsimp only
                  rw [h2, h3]
              | null => dsimp only at h; exact absurd h (by simp)
              | bool b0 => dsimp only at h; exact absurd h (by simp)
              | num n0 => dsimp only at h; exact absurd h (by simp)
              | str s0 => dsimp only at h; exact absurd h (by simp)
              | obj kvs => dsimp only at h; exact absurd h (by simp)
          · subst hcbrk
            rw [if_neg (by decide), if_pos rfl] at h ⊢
            injection h with h1
            injection h1 with h2 h3
            rw [h2, h3]

theorem parseJ_fuel_mono :
    ∀ (f : Nat) (mode : PMode) (s : List Char) (v : J) (rest : List Char) (f' : Nat),
      f ≤ f' → parseJ f mode s = some (v, rest) → parseJ f' mode s = some (v, rest) := by
  intro f
  induction f with
  | zero =>
    intro mode s v rest f' _ h
    simp [parseJ] at h
  | succ f ih =>
    intro mode s v rest f' hle h
    obtain ⟨f'', rfl⟩ : ∃ f'', f' = f'' + 1 := ⟨f' - 1, by omega⟩
    have hle2 : f ≤ f'' := by omega
    cases mode with
    | value =>
      cases s with
      | nil =>
        rw [parseJ_value_nil] at h
        exact absurd h (by simp)
      | cons a r =>
        unfold parseJ at h ⊢
        dsimp only at h ⊢
        by_cases hbrace : a = '{'
        · rw [if_pos hbrace] at h ⊢
          cases hsw : skipWs r with
          | nil => rw [hsw] at h; simp at h
          | cons d r2 =>
            rw [hsw] at h
            dsimp only at h ⊢
            by_cases hd : d = '}'
            · rw [if_pos hd] at h ⊢
              exact h
            · rw [if_neg hd] at h ⊢
              exact ih PMode.members _ v rest f'' hle2 h
        · rw [if_neg hbrace] at h ⊢
          by_cases hbrk : a = '['
          · rw [if_pos hbrk] at h ⊢
            cases hsw : skipWs r with
            | nil => rw [hsw] at h; simp at h
            | cons d r2 =>
              rw [hsw] at h
              dsimp only at h ⊢
              by_cases hd : d = ']'
              · rw [if_pos hd] at h ⊢
                exact h
              · rw [if_neg hd] at h ⊢
                exact ih PMode.elems _ v rest f'' hle2 h
          · rw [if_neg hbrk] at h ⊢
            exact h
    | members =>
      cases s with
      | nil =>
        rw [parseJ_members_nil] at h
        exact absurd h (by simp)
      | cons a r =>
        unfold parseJ at h ⊢
        dsimp only at h ⊢
        by_cases hq : a = '"'
        · rw [if_pos hq] at h ⊢
          cases hp : parseStringBody r with
          | none => rw [hp] at h; simp at h
          | some pr =>
            obtain ⟨key, r1⟩ := pr
            rw [hp] at h
            dsimp only at h ⊢
            cases hsw1 : skipWs r1 with
            | nil => rw [hsw1] at h; simp at h
            | cons b r2 =>
              rw [hsw1] at h
              dsimp only at h ⊢
              by_cases hb : b = ':'
              · rw [if_pos hb] at h ⊢
                cases hv : parseJ f PMode.value (skipWs r2) with
                | none => rw [hv] at h; simp at h
                | some pv =>
                  obtain ⟨v0, r3⟩ := pv
                  rw [hv] at h
                  rw [ih PMode.value (skipWs r2) v0 r3 f'' hle2 hv]
                  dsimp only at h ⊢
                  cases hsw3 : skipWs r3 with
                  | nil => rw [hsw3] at h; simp at h
                  | cons e r4 =>
                    rw [hsw3] at h
                    dsimp only at h ⊢
                    by_cases hcm : e = ','
                    · rw [if_pos hcm] at h ⊢
                      cases hm : parseJ f PMode.members (skipWs r4) with
                      | none => rw [hm] at h; simp at h
                      | some pm =>
                        obtain ⟨jv, r5⟩ := pm
                        rw [hm] at h
                        rw [ih PMode.members (skipWs r4) jv r5 f'' hle2 hm]
                        exact h
                    · rw [if_neg hcm] at h ⊢
                      exact h
              · rw [if_neg hb] at h
                simp at h
        · rw [if_neg hq] at h
          simp at h
    | elems =>
      unfold parseJ at h ⊢
      cases hv : parseJ f PMode.value s with
      | none => rw [hv] at h; simp at h
      | some pv =>
        obtain ⟨v0, r⟩ := pv
        rw [hv] at h
        rw [ih PMode.value s v0 r f'' hle2 hv]
        dsimp only at h ⊢
        cases hswr : skipWs r with
        | nil => rw [hswr] at h; simp at h
        | cons e r2 =>
          rw [hswr] at h
          dsimp only at h ⊢
          by_cases hcm : e = ','
          · rw [if_pos hcm] at h ⊢
            cases hm : parseJ f PMode.elems (skipWs r2) with
            | none => rw [hm] at h; simp at h
            | some pm =>
              obtain ⟨jv, r3⟩ := pm
              rw [hm] at h
              rw [ih PMode.elems (skipWs r2) jv r3 f'' hle2 hm]
              exact h
          · rw [if_neg hcm] at h ⊢
            exact h

theorem parseNumber_brace (l : List Char) : parseNumber ('{' :: l) = none := by
  unfold parseNumber parseIntPart
  simp

theorem takeWhile_all_append {α} (p : α → Bool) (xs ys : List α)
    (h : ∀ c ∈ xs, p c = true) :
    (xs ++ ys).takeWhile p = xs ++ ys.takeWhile p := by
  induction xs with
  | nil => simp
  | cons a l ih =>
    rw [List.cons_append, List.takeWhile_cons, if_pos (h a (by simp)), List.cons_append,
      ih (fun c hc => h c (by simp [hc]))]

theorem dropWhile_all_append {α} (p : α → Bool) (xs ys : List α)
    (h : ∀ c ∈ xs, p c = true) :
    (xs ++ ys).dropWhile p = ys.dropWhile p := by
  induction xs with
  | nil => simp
  | cons a l ih =>
    rw [List.cons_append, List.dropWhile_cons, if_pos (h a (by simp)),
      ih (fun c hc => h c (by simp [hc]))]

theorem jsonLoads_truncated_none (body dr : List Char) (v : J)
    (hdr : dr ≠ [])
    (hparse : parseJ (('{' :: (body ++ '}' :: dr)).length + 1) PMode.value
        ('{' :: (body ++ '}' :: dr)) = some (v, [])) :
    jsonLoads ('{' :: (body ++ ['}'])) = none := by
  cases hjl : jsonLoads ('{' :: (body ++ ['}'])) with
  | none => rfl
  | some w =>
    exfalso
    unfold jsonLoads at hjl
    have hsw : skipWs ('{' :: (body ++ ['}'])) = '{' :: (body ++ ['}']) := by
      unfold skipWs
      rw [List.dropWhile_cons, if_neg (by decide)]
    rw [hsw] at hjl
    dsimp only at hjl
    cases hp : parseJ (('{' :: (body ++ ['}'])).length + 1) PMode.value
        ('{' :: (body ++ ['}'])) with
    | none => rw [hp] at hjl; exact absurd hjl (by simp)
    | some pr =>
      obtain ⟨w0, r0⟩ := pr
      rw [hp] at hjl
      have hmono := parseJ_monotone (('{' :: (body ++ ['}'])).length + 1) PMode.value
        ('{' :: (body ++ ['}'])) dr w0 r0 hp
        (fun _ => Or.inl (parseNumber_brace (body ++ ['}'])))
      have heq : ('{' :: (body ++ ['}'])) ++ dr = '{' :: (body ++ '}' :: dr) := by
        simp
      rw [heq] at hmono
      have hfuel : ('{' :: (body ++ ['}'])).length + 1 ≤
          ('{' :: (body ++ '}' :: dr)).length + 1 := by
        simp
      have hbig := parseJ_fuel_mono (('{' :: (body ++ ['}'])).length + 1) PMode.value
        ('{' :: (body ++ '}' :: dr)) w0 (r0 ++ dr)
        (('{' :: (body ++ '}' :: dr)).length + 1) hfuel hmono
      rw [hparse] at hbig
      injection hbig with hbig2
      have hrest : ([] : List Char) = r0 ++ dr := congrArg Prod.snd hbig2
      have := List.append_eq_nil.mp hrest.symm
      exact hdr this.2

theorem stripPfx_self (p x : List Char) : stripPfx p (p ++ x) = some x := by
  unfold stripPfx
  rw [if_pos]
  · rw [List.drop_left]
  · rw [List.isPrefixOf_iff_prefix]
    exact List.prefix_append p x

theorem tryMatchAt_ne_T (c : Char) (l : List Char) (h : c ≠ 'T') :
    tryMatchAt (c :: l) = none := by
  unfold tryMatchAt stripPfx
  have hpf : ("TOOL_CALL:".toList).isPrefixOf (c :: l) = false := by
    have : "TOOL_CALL:".toList = 'T' :: "OOL_CALL:".toList := rfl
    rw [this, List.isPrefixOf]
    simp [Ne.symm h]
  rw [hpf]
  simp

theorem findMatchesAux_no_T (l : List Char) (h : ∀ c ∈ l, c ≠ 'T') :
    ∀ k, findMatchesAux l k = [] := by
  induction l with
  | nil => intro k; cases k <;> rfl
  | cons c rest ih =>
    intro k
    cases k with
    | succ k0 =>
      show findMatchesAux rest k0 = []
      exact ih (fun x hx => h x (by simp [hx])) k0
    | zero =>
      show (match tryMatchAt (c :: rest) with
        | some (m, rem) => m :: findMatchesAux rest (rest.length - rem.length)
        | none => findMatchesAux rest 0) = []
      rw [tryMatchAt_ne_T c rest (h c (by simp))]
      exact ih (fun x hx => h x (by simp [hx])) 0

theorem findMatchesAux_skip_append (xs ys : List Char) :
    findMatchesAux (xs ++ ys) xs.length = findMatchesAux ys 0 := by
  induction xs with
  | nil => rfl
  | cons a xs ih =>
    show findMatchesAux (xs ++ ys) xs.length = findMatchesAux ys 0
    exact ih

theorem isWs_eq_false_of_word (c : Char) (h : isWordChar c = true) : isWs c = false := by
  cases hw : isWs c with
  | false => rfl
  | true =>
    exfalso
    have h6 : c = ' ' ∨ c = '\t' ∨ c = '\n' ∨ c = '\r' ∨ c = '\x0b' ∨ c = '\x0c' := by
      simp only [isWs, Bool.or_eq_true, decide_eq_true_eq] at hw
      tauto
    rcases h6 with h1 | h1 | h1 | h1 | h1 | h1 <;> subst h1 <;> exact absurd h (by decide)

theorem tryMatchAt_legacy (name d' body dr : List Char)
    (hname : name ≠ []) (hword : ∀ c ∈ name, isWordChar c = true)
    (hbody : d'.takeWhile (fun c => c ≠ '}') = body)
    (hbody_ne : body ≠ [])
    (hdrop : d'.dropWhile (fun c => c ≠ '}') = '}' :: dr) :
    tryMatchAt ("TOOL_CALL: ".toList ++ name ++ '\n' :: ("ARGS: ".toList ++ '{' :: d'))
      = some (⟨name, '{' :: (body ++ ['}'])⟩, dr) := by
  have hresp : "TOOL_CALL: ".toList ++ name ++ '\n' :: ("ARGS: ".toList ++ '{' :: d')
      = "TOOL_CALL:".toList ++ (' ' :: (name ++ '\n' :: ("ARGS: ".toList ++ '{' :: d'))) := by
    have hTC : ("TOOL_CALL: ".toList : List Char) = "TOOL_CALL:".toList ++ [' '] := rfl
    rw [hTC]
    simp
  rw [hresp]
  unfold tryMatchAt
  rw [stripPfx_self]
  dsimp only
  obtain ⟨n0, nt, rfl⟩ : ∃ n0 nt, name = n0 :: nt := by
    cases name with
    | nil => exact absurd rfl hname
    | cons a b => exact ⟨a, b, rfl⟩
  have hws0 : isWs n0 = false := isWs_eq_false_of_word n0 (hword n0 (by simp))
  have h2 : (' ' :: ((n0 :: nt) ++ '\n' :: ("ARGS: ".toList ++ '{' :: d'))).dropWhile isWs
      = (n0 :: nt) ++ '\n' :: ("ARGS: ".toList ++ '{' :: d') := by
    rw [List.dropWhile_cons, if_pos (by decide), List.cons_append, List.dropWhile_cons,
      if_neg (by simp [hws0])]
  rw [h2]
  have h3 : ((n0 :: nt) ++ '\n' :: ("ARGS: ".toList ++ '{' :: d')).takeWhile isWordChar
      = n0 :: nt := by
    rw [takeWhile_all_append isWordChar _ _ hword, List.takeWhile_cons, if_neg (by decide)]
    simp
  have h4 : ((n0 :: nt) ++ '\n' :: ("ARGS: ".toList ++ '{' :: d')).dropWhile isWordChar
      = '\n' :: ("ARGS: ".toList ++ '{' :: d') := by
    rw [dropWhile_all_append isWordChar _ _ hword, List.dropWhile_cons, if_neg (by decide)]
  rw [h3, h4, if_neg (by simp : ¬(n0 :: nt) = [])]
  have hA : ("ARGS: ".toList : List Char) ++ '{' :: d'
      = 'A' :: 'R' :: 'G' :: 'S' :: ':' :: ' ' :: '{' :: d' := by
    have : ("ARGS: ".toList : List Char) = ['A', 'R', 'G', 'S', ':', ' '] := rfl
    rw [this]
    simp
  rw [hA]
  have h5 : ('\n' :: ('A' :: 'R' :: 'G' :: 'S' :: ':' :: ' ' :: '{' :: d')).takeWhile isWs
      = ['\n'] := by
    rw [List.takeWhile_cons, if_pos (by decide), List.takeWhile_cons, if_neg (by decide)]
  have h7 : ('\n' :: ('A' :: 'R' :: 'G' :: 'S' :: ':' :: ' ' :: '{' :: d')).dropWhile isWs
      = 'A' :: 'R' :: 'G' :: 'S' :: ':' :: ' ' :: '{' :: d' := by
    rw [List.dropWhile_cons, if_pos (by decide), List.dropWhile_cons, if_neg (by decide)]
  rw [h5, h7, if_pos (by decide : (['\n'] : List Char).getLast? = some '\n')]
  have h8 : stripPfx ("ARGS:".toList) ('A' :: 'R' :: 'G' :: 'S' :: ':' :: ' ' :: '{' :: d')
      = some (' ' :: '{' :: d') := by
    have : ('A' :: 'R' :: 'G' :: 'S' :: ':' :: ' ' :: '{' :: d' : List Char)
        = "ARGS:".toList ++ (' ' :: '{' :: d') := by
      have h0 : ("ARGS:".toList : List Char) = ['A', 'R', 'G', 'S', ':'] := rfl
      rw [h0]
      simp
    rw [this]
    exact stripPfx_self _ _
  rw [h8]
  dsimp only
  have h9 : (' ' :: '{' :: d').dropWhile isWs = '{' :: d' := by
    rw [List.dropWhile_cons, if_pos (by decide), List.dropWhile_cons, if_neg (by decide)]
  rw [h9]
  dsimp only
  rw [if_pos rfl, hbody, if_neg hbody_ne, hdrop]
  dsimp only
  rw [if_pos rfl]

theorem mem_of_idx {α} (l : List α) (n : Nat) (a : α) (h : l[n]? = some a) : a ∈ l := by
  induction l generalizing n with
  | nil => simp at h
  | cons x xs ih =>
    cases n with
    | zero =>
      rw [List.getElem?_cons_zero] at h
      injection h with h0
      simp [h0]
    | succ m =>
      rw [List.getElem?_cons_succ] at h
      simp [ih m h]

theorem parseJ_empty_obj (n : Nat) (l : List Char) :
    parseJ (n + 1) PMode.value ('{' :: '}' :: l) = some (J.obj [], l) := by
  unfold parseJ
  dsimp only
  rw [if_pos rfl]
  have hsw : skipWs ('}' :: l) = '}' :: l := by
    unfold skipWs
    rw [List.dropWhile_cons, if_neg (by decide)]
  rw [hsw]
  dsimp only
  rw [if_pos rfl]

/-- C10: the regex capture of an `ARGS` object stops at the first closing
brace, so when the declared JSON object contains a `\x7d` before its final
character (for example a nested object, as in the `files` mapping that
`improve_self` receives), the captured text is the strict prefix ending at
that first brace, its JSON decoding fails, and the pair is skipped: the
parser returns no call carrying the declared arguments. -/
theorem parse_tool_calls_truncates_nested_args (name d' : List Char) (v : J) (i : Nat)
    (hname : name ≠ [])
    (hword : ∀ c ∈ name, isWordChar c = true)
    (hparse : parseJ (('{' :: d').length + 1) PMode.value ('{' :: d') = some (v, []))
    (hbr : ('{' :: d')[i]? = some '}')
    (hlt : i + 1 < ('{' :: d').length)
    (hT : ∀ c ∈ d', c ≠ 'T') :
    jsonLoads ('{' :: (d'.takeWhile (fun c => c ≠ '}') ++ ['}'])) = none ∧
    findMatches ("TOOL_CALL: ".toList ++ name ++ '\n' :: ("ARGS: ".toList ++ '{' :: d'))
      = [⟨name, '{' :: (d'.takeWhile (fun c => c ≠ '}') ++ ['}'])⟩] ∧
    parseToolCalls ("TOOL_CALL: ".toList ++ name ++ '\n' :: ("ARGS: ".toList ++ '{' :: d'))
      = [] := by
  -- the position of the early brace is strictly positive
  obtain ⟨j, rfl⟩ : ∃ j, i = j + 1 := by
    cases i with
    | zero => simp at hbr
    | succ j => exact ⟨j, rfl⟩
  rw [List.getElem?_cons_succ] at hbr
  have hmem : '}' ∈ d' := mem_of_idx d' j '}' hbr
  -- decompose the args text at its first closing brace
  cases hdw : d'.dropWhile (fun c => c ≠ '}') with
  | nil =>
    exfalso
    rw [List.dropWhile_eq_nil_iff] at hdw
    have := hdw '}' hmem
    simp at this
  | cons e dr =>
    have he : e = '}' := by
      have := dropWhile_head_not (fun c => decide (c ≠ '}')) d' e dr hdw
      simpa using this
    subst he
    have hdecomp : d'.takeWhile (fun c => c ≠ '}') ++ '}' :: dr = d' := by
      rw [← hdw]
      exact List.takeWhile_append_dropWhile _ _
    obtain ⟨B, hB⟩ : ∃ B, d'.takeWhile (fun c => c ≠ '}') = B := ⟨_, rfl⟩
    rw [hB] at hdecomp
    -- the captured body is nonempty
    have hbody_ne : B ≠ [] := by
      intro h0
      rw [h0, List.nil_append] at hdecomp
      rw [← hdecomp] at hparse hlt
      rw [parseJ_empty_obj] at hparse
      injection hparse with hpair
      have hdr0 : dr = [] := congrArg Prod.snd hpair
      rw [hdr0] at hlt
      simp only [List.length_cons, List.length_nil] at hlt
      omega
    -- the remainder after the first closing brace is nonempty
    have hdr_ne : dr ≠ [] := by
      have hlend : d'.length = B.length + (dr.length + 1) := by
        rw [← hdecomp]
        simp
      have hjB : B.length ≤ j := by
        by_contra hcon
        push_neg at hcon
        rw [← hdecomp] at hbr
        rw [List.getElem?_append_left hcon] at hbr
        have hmemB : '}' ∈ B := mem_of_idx B j '}' hbr
        rw [← hB] at hmemB
        have := List.mem_takeWhile_imp hmemB
        simp at this
      have hjlen : j + 1 < d'.length := by
        simp at hlt
        omega
      intro h0
      rw [h0] at hlend
      simp at hlend
      omega
    -- the scanner finds exactly the truncated match
    have hm := tryMatchAt_legacy name d' B dr hname hword hB hbody_ne hdw
    have hcap : jsonLoads ('{' :: (B ++ ['}'])) = none := by
      apply jsonLoads_truncated_none B dr v hdr_ne
      rw [hdecomp]
      exact hparse
    have hTdr : ∀ c ∈ dr, c ≠ 'T' := by
      intro c hc
      apply hT
      rw [← hdecomp]
      simp [hc]
    have hfind : findMatches ("TOOL_CALL: ".toList ++ name ++ '\n' ::
        ("ARGS: ".toList ++ '{' :: d'))
        = [⟨name, '{' :: (B ++ ['}'])⟩] := by
      have hR : "TOOL_CALL: ".toList ++ name ++ '\n' :: ("ARGS: ".toList ++ '{' :: d')
          = 'T' :: (("OOL_CALL: ".toList ++ name) ++ '\n' :: ("ARGS: ".toList ++ '{' :: d')) := by
        have h0 : ("TOOL_CALL: ".toList : List Char) = 'T' :: "OOL_CALL: ".toList := rfl
        rw [h0]
        simp
      rw [hR] at hm ⊢
      unfold findMatches findMatchesAux
      rw [hm]
      have hREST : ("OOL_CALL: ".toList ++ name) ++ '\n' :: ("ARGS: ".toList ++ '{' :: d')
          = (("OOL_CALL: ".toList ++ name) ++ '\n' ::
              ("ARGS: ".toList ++ '{' :: (B ++ ['}']))) ++ dr := by
        rw [← hdecomp]
        simp
      rw [hREST]
      have harith : ((("OOL_CALL: ".toList ++ name) ++ '\n' ::
              ("ARGS: ".toList ++ '{' :: (B ++ ['}']))) ++ dr).length - dr.length
          = (("OOL_CALL: ".toList ++ name) ++ '\n' ::
              ("ARGS: ".toList ++ '{' :: (B ++ ['}']))).length := by
        simp
        omega
      dsimp only
      rw [harith, findMatchesAux_skip_append, findMatchesAux_no_T dr hTdr]
    refine ⟨by rw [hB]; exact hcap, by rw [hB]; exact hfind, ?_⟩
    unfold parseToolCalls
    rw [hfind]
    simp [List.filterMap, decodeMatch, hcap]

/-- Witness for `parse_tool_calls_truncates_nested_args`: the
`improve_self` tool invoked with the nested object
`\x7b"files": \x7b"a": "b"\x7d\x7d`. -/
theorem parse_tool_calls_truncates_nested_args_witness :
    (("improve_self".toList : List Char) ≠ [] ∧
      (∀ c ∈ ("improve_self".toList : List Char), isWordChar c = true) ∧
      parseJ (('{' :: nestedArgsBody).length + 1) PMode.value ('{' :: nestedArgsBody)
        = some (nestedArgsVal, []) ∧
      ('{' :: nestedArgsBody)[19]? = some '}' ∧
      19 + 1 < ('{' :: nestedArgsBody).length ∧
      (∀ c ∈ nestedArgsBody, c ≠ 'T')) ∧
    (jsonLoads ('{' :: (nestedArgsBody.takeWhile (fun c => c ≠ '}') ++ ['}'])) = none ∧
      findMatches ("TOOL_CALL: ".toList ++ "improve_self".toList ++ '\n' ::
          ("ARGS: ".toList ++ '{' :: nestedArgsBody))
        = [⟨"improve_self".toList,
            '{' :: (nestedArgsBody.takeWhile (fun c => c ≠ '}') ++ ['}'])⟩] ∧
      parseToolCalls ("TOOL_CALL: ".toList ++ "improve_self".toList ++ '\n' ::
          ("ARGS: ".toList ++ '{' :: nestedArgsBody)) = []) :=
  ⟨⟨by decide, by decide, rfl, by decide, by decide, by decide⟩,
    parse_tool_calls_truncates_nested_args ("improve_self".toList) nestedArgsBody
      nestedArgsVal 19 (by decide) (by decide) rfl (by decide) (by decide) (by decide)⟩



/-! ### The restart flag (`_improve_self` and the tool registry) -/

set_option maxRecDepth 100000 in
/-- C9: across every tool of the registry, on every control path, only
`improve_self` ever writes the `requires_restart` metadata flag, and it
does so exactly on its success path, with value `true` (alongside
`auto_committed`); a failed `improve_self` and every other tool result
carry a metadata dict without that key. -/
theorem requires_restart_only_improve_self :
    (∀ fp off lim o, ("requires_restart".toList) ∉ metaKeys (readFile fp off lim o).metadata) ∧
    (∀ fp content o, ("requires_restart".toList) ∉ metaKeys (writeFile fp content o).metadata) ∧
    (∀ fp old new file, ("requires_restart".toList) ∉ metaKeys (editFile fp old new file).1.metadata) ∧
    (∀ cmd t o, ("requires_restart".toList) ∉ metaKeys (bashTool cmd t o).metadata) ∧
    (∀ pat p o, ("requires_restart".toList) ∉ metaKeys (globTool pat p o).metadata) ∧
    (∀ pat p ctx o, ("requires_restart".toList) ∉ metaKeys (grepTool pat p ctx o).metadata) ∧
    (∀ q o, ("requires_restart".toList) ∉ metaKeys (webSearch q o).metadata) ∧
    (∀ u ep jo fo, ("requires_restart".toList) ∉ metaKeys (webFetch u ep jo fo).metadata) ∧
    (∀ q r o, ("requires_restart".toList) ∉ metaKeys (ghSearchCode q r o).metadata) ∧
    (∀ r n o, ("requires_restart".toList) ∉ metaKeys (ghGetPr r n o).metadata) ∧
    (∀ d r f o,
      ((improveSelf d r f o).success = true →
        metaLookup ("requires_restart".toList) (improveSelf d r f o).metadata
          = some (MetaVal.b true)) ∧
      ((improveSelf d r f o).success = false →
        ("requires_restart".toList) ∉ metaKeys (improveSelf d r f o).metadata)) := by
  refine ⟨?_, ?_, ?_, ?_, ?_, ?_, ?_, ?_, ?_, ?_, ?_⟩
  · intro fp off lim o
    cases o <;> dsimp only [readFile, metaKeys, List.map] <;> decide
  · intro fp content o
    cases o <;> dsimp only [writeFile, metaKeys, List.map] <;> decide
  · intro fp old new file
    cases file <;> dsimp only [editFile] <;> (try split) <;> (try split) <;>
      dsimp only [metaKeys, List.map] <;> decide
  · intro cmd t o
    cases o <;> dsimp only [bashTool] <;> (try split) <;>
      dsimp only [metaKeys, List.map] <;> decide
  · intro pat p o
    cases o <;> dsimp only [globTool] <;> (try split) <;>
      dsimp only [metaKeys, List.map] <;> decide
  · intro pat p ctx o
    cases o <;> dsimp only [grepTool] <;> (try split) <;>
      dsimp only [metaKeys, List.map] <;> decide
  · intro q o
    cases o <;> dsimp only [webSearch] <;> (try split) <;>
      dsimp only [metaKeys, List.map] <;> decide
  · intro u ep jo fo
    have hfb : ∀ (u1 : List Char) (fo1 : FetchOutcome),
        ("requires_restart".toList) ∉ metaKeys (webFetchFallback u1 fo1).metadata := by
      intro u1 fo1
      cases fo1 <;> dsimp only [webFetchFallback] <;> (try split) <;>
        dsimp only [metaKeys, List.map] <;> decide
    cases ep with
    | none =>
      dsimp only [webFetch]
      exact hfb u fo
    | some ep0 =>
      dsimp only [webFetch]
      split
      · cases jo <;> dsimp only [webFetchViaJina] <;> (try split) <;>
          dsimp only [metaKeys, List.map] <;> decide
      · exact hfb u fo
  · intro q r o
    cases o <;> dsimp only [ghSearchCode] <;> (try split) <;>
      dsimp only [metaKeys, List.map] <;> decide
  · intro r n o
    cases o <;> dsimp only [ghGetPr, metaKeys, List.map] <;> decide
  · intro d r f o
    cases o with
    | notAvailable =>
      refine ⟨fun h => ?_, fun _ => ?_⟩
      · dsimp only [improveSelf] at h
        exact absurd h (by decide)
      · dsimp only [improveSelf, metaKeys, List.map]
        decide
    | ok ch id diff fc =>
      refine ⟨fun _ => ?_, fun h => ?_⟩
      · dsimp only [improveSelf, metaLookup]
        rw [if_neg (by decide), if_pos (by decide)]
      · dsimp only [improveSelf] at h
        exact absurd h (by decide)
    | raised e =>
      refine ⟨fun h => ?_, fun _ => ?_⟩
      · dsimp only [improveSelf] at h
        exact absurd h (by decide)
      · dsimp only [improveSelf, metaKeys, List.map]
        decide

/-- Witness for `requires_restart_only_improve_self`: a landed
improvement carries the flag, a raising one does not. -/
theorem requires_restart_only_improve_self_witness :
    ((improveSelf ("fix".toList) ("why".toList) J.null
        (ImproveOutcome.ok ("abc1234def".toList) ("IMP-001".toList) ("+ x".toList)
          [("lib/a.py".toList)])).success = true ∧
      metaLookup ("requires_restart".toList)
        (improveSelf ("fix".toList) ("why".toList) J.null
          (ImproveOutcome.ok ("abc1234def".toList) ("IMP-001".toList) ("+ x".toList)
            [("lib/a.py".toList)])).metadata = some (MetaVal.b true)) ∧
    ((improveSelf ("fix".toList) ("why".toList) J.null
        (ImproveOutcome.raised ("boom".toList))).success = false ∧
      ("requires_restart".toList) ∉ metaKeys
        (improveSelf ("fix".toList) ("why".toList) J.null
          (ImproveOutcome.raised ("boom".toList))).metadata) :=
  ⟨⟨rfl, (requires_restart_only_improve_self.2.2.2.2.2.2.2.2.2.2
      ("fix".toList) ("why".toList) J.null
      (ImproveOutcome.ok ("abc1234def".toList) ("IMP-001".toList) ("+ x".toList)
        [("lib/a.py".toList)])).1 rfl⟩,
   ⟨rfl, (requires_restart_only_improve_self.2.2.2.2.2.2.2.2.2.2
      ("fix".toList) ("why".toList) J.null
      (ImproveOutcome.raised ("boom".toList))).2 rfl⟩⟩

end Twin
